import Mathlib

set_option linter.unusedSectionVars false

/-!
Verification development for the sandbox launcher composition engine
(`common/flatpak-run.c`).

The first part is a small library modelling `GHashTable` as an ordered
association list: `g_hash_table_insert` on an existing key replaces the
value in place, otherwise the pair is appended (iteration order of a
hash table is abstracted as the list order).
-/

namespace FlatpakRun

section AssocList

variable {α : Type} [DecidableEq α] {β : Type}

/-- `g_hash_table_insert`: replace the value of an existing key in place,
otherwise append the new pair. -/
def insertKV : List (α × β) → α → β → List (α × β)
  | [], k, v => [(k, v)]
  | (k', v') :: rest, k, v =>
    if k' = k then (k', v) :: rest else (k', v') :: insertKV rest k v

/-- `g_hash_table_lookup`. -/
def lookupKV : List (α × β) → α → Option β
  | [], _ => none
  | (k', v') :: rest, k => if k' = k then some v' else lookupKV rest k

/-- Insert for a hash table used as a set (key only). -/
def insertSet : List α → α → List α
  | [], k => [k]
  | k' :: rest, k => if k' = k then k' :: rest else k' :: insertSet rest k

/-- The keys of an association list, in iteration order. -/
def keysOf (l : List (α × β)) : List α := l.map Prod.fst

/-- A hash table never holds a key twice. -/
def nodupKeys (l : List (α × β)) : Prop := (keysOf l).Nodup

/-- Folding a sequence of inserts (the body of the per-map merge loops). -/
def insertAll (l : List (α × β)) (other : List (α × β)) : List (α × β) :=
  other.foldl (fun acc kv => insertKV acc kv.1 kv.2) l

/-- Folding a sequence of set inserts. -/
def insertAllSet (l : List α) (other : List α) : List α :=
  other.foldl insertSet l

instance : DecidablePred (nodupKeys (α := α) (β := β)) := fun l =>
  inferInstanceAs (Decidable (keysOf l).Nodup)

@[simp] theorem keysOf_nil : keysOf ([] : List (α × β)) = [] := rfl

@[simp] theorem keysOf_cons (k' : α) (v' : β) (rest : List (α × β)) :
    keysOf ((k', v') :: rest) = k' :: keysOf rest := rfl

@[simp] theorem keysOf_append (l₁ l₂ : List (α × β)) :
    keysOf (l₁ ++ l₂) = keysOf l₁ ++ keysOf l₂ := by
  simp [keysOf]

theorem keysOf_insertKV (l : List (α × β)) (k : α) (v : β) :
    keysOf (insertKV l k v) = if k ∈ keysOf l then keysOf l else keysOf l ++ [k] := by
  induction l with
  | nil => simp [insertKV]
  | cons kv rest ih =>
    obtain ⟨k', v'⟩ := kv
    by_cases h : k' = k
    · subst h
      simp [insertKV]
    · simp only [insertKV, if_neg h, keysOf_cons]
      rw [ih]
      by_cases hm : k ∈ keysOf rest
      · simp [hm, Ne.symm h]
      · simp [hm, Ne.symm h]

theorem mem_keysOf_insertKV (l : List (α × β)) (k : α) (v : β) (a : α)
    (h : a ∈ keysOf l) : a ∈ keysOf (insertKV l k v) := by
  rw [keysOf_insertKV]
  split <;> simp [h]

theorem nodupKeys_insertKV (l : List (α × β)) (k : α) (v : β)
    (h : nodupKeys l) : nodupKeys (insertKV l k v) := by
  unfold nodupKeys at *
  rw [keysOf_insertKV]
  split
  · exact h
  · next hnot => simpa [List.nodup_append] using ⟨h, hnot⟩

theorem lookupKV_insertKV_self (l : List (α × β)) (k : α) (v : β) :
    lookupKV (insertKV l k v) k = some v := by
  induction l with
  | nil => simp [insertKV, lookupKV]
  | cons kv rest ih =>
    obtain ⟨k', v'⟩ := kv
    by_cases h : k' = k <;> simp [insertKV, lookupKV, h, ih]

theorem lookupKV_insertKV_ne (l : List (α × β)) (k : α) (v : β) (a : α)
    (h : k ≠ a) : lookupKV (insertKV l k v) a = lookupKV l a := by
  induction l with
  | nil => simp [insertKV, lookupKV, h]
  | cons kv rest ih =>
    obtain ⟨k', v'⟩ := kv
    by_cases h' : k' = k
    · subst h'
      simp [insertKV, lookupKV, h]
    · simp [insertKV, lookupKV, h', ih]

/-- Re-inserting the value a key already has leaves the table unchanged. -/
theorem insertKV_lookup_self (l : List (α × β)) (k : α) (v : β)
    (h : lookupKV l k = some v) : insertKV l k v = l := by
  induction l with
  | nil => simp [lookupKV] at h
  | cons kv rest ih =>
    obtain ⟨k', v'⟩ := kv
    by_cases h' : k' = k
    · subst h'
      simp [lookupKV] at h
      simp [insertKV, h]
    · simp [lookupKV, h'] at h
      simp [insertKV, h', ih h]

/-- Inserting twice at the same key keeps only the last value. -/
theorem insertKV_insertKV_self (l : List (α × β)) (k : α) (v v' : β) :
    insertKV (insertKV l k v') k v = insertKV l k v := by
  induction l with
  | nil => simp [insertKV]
  | cons kv rest ih =>
    obtain ⟨k', w⟩ := kv
    by_cases h : k' = k <;> simp [insertKV, h, ih]

/-- Inserts at distinct keys commute, provided the first key is already
present (so no append-order ambiguity arises). -/
theorem insertKV_comm_of_mem (l : List (α × β)) (k k2 : α) (v v2 : β)
    (hne : k ≠ k2) (hmem : k ∈ keysOf l) :
    insertKV (insertKV l k2 v2) k v = insertKV (insertKV l k v) k2 v2 := by
  induction l with
  | nil => simp [keysOf] at hmem
  | cons kv rest ih =>
    obtain ⟨k', w⟩ := kv
    by_cases h1 : k' = k
    · subst h1
      simp [insertKV, Ne.symm hne, hne]
    · by_cases h2 : k' = k2
      · subst h2
        simp [insertKV, h1, Ne.symm hne]
      · rw [keysOf_cons, List.mem_cons] at hmem
        rcases hmem with hmem | hmem
        · exact absurd hmem.symm h1
        · simp [insertKV, h1, h2, ih hmem]

theorem insertKV_of_not_mem (l : List (α × β)) (k : α) (v : β)
    (h : k ∉ keysOf l) : insertKV l k v = l ++ [(k, v)] := by
  induction l with
  | nil => simp [insertKV]
  | cons kv rest ih =>
    obtain ⟨k', w⟩ := kv
    rw [keysOf_cons, List.mem_cons] at h
    push_neg at h
    have hne : ¬ k' = k := fun hk => h.1 hk.symm
    simp [insertKV, hne, ih h.2]

/-- A later overwrite at `k` can be pulled before folding a list that does
not mention `k`, provided `k` is already present. -/
theorem insertKV_insertAll_of_not_mem (bs : List (α × β)) (k : α) (v : β) :
    ∀ l : List (α × β), k ∉ keysOf bs → k ∈ keysOf l →
    insertKV (insertAll l bs) k v = insertAll (insertKV l k v) bs := by
  induction bs with
  | nil => intro l _ _; simp [insertAll]
  | cons b rest ih =>
    intro l hk hmem
    obtain ⟨k2, v2⟩ := b
    rw [keysOf_cons, List.mem_cons] at hk
    push_neg at hk
    have hne : k ≠ k2 := hk.1
    have h1 : insertAll l ((k2, v2) :: rest) = insertAll (insertKV l k2 v2) rest := rfl
    rw [h1, ih (insertKV l k2 v2) hk.2 (mem_keysOf_insertKV _ _ _ _ hmem),
        insertKV_comm_of_mem l k k2 v v2 hne hmem]
    rfl

/-- Key lemma: folding `insertKV bs k v` into `l` is folding `bs` then
inserting, when `bs` has no duplicate keys. -/
theorem insertAll_insertKV (bs : List (α × β)) (k : α) (v : β) :
    ∀ l : List (α × β), nodupKeys bs →
    insertAll l (insertKV bs k v) = insertKV (insertAll l bs) k v := by
  induction bs with
  | nil => intro l _; simp [insertAll, insertKV]
  | cons b rest ih =>
    intro l hnd
    obtain ⟨k', v'⟩ := b
    have hnd2 : (k' :: keysOf rest).Nodup := hnd
    have hnd' : nodupKeys rest := (List.nodup_cons.mp hnd2).2
    by_cases h : k' = k
    · subst h
      have hk' : k' ∉ keysOf rest := (List.nodup_cons.mp hnd2).1
      have e1 : insertKV ((k', v') :: rest) k' v = (k', v) :: rest := by
        simp [insertKV]
      rw [e1]
      show insertAll (insertKV l k' v) rest =
        insertKV (insertAll (insertKV l k' v') rest) k' v
      rw [insertKV_insertAll_of_not_mem rest k' v (insertKV l k' v') hk'
            (by rw [keysOf_insertKV]; split <;> simp_all),
          insertKV_insertKV_self]
    · have e1 : insertKV ((k', v') :: rest) k v = (k', v') :: insertKV rest k v := by
        simp [insertKV, h]
      rw [e1]
      show insertAll (insertKV l k' v') (insertKV rest k v) =
        insertKV (insertAll (insertKV l k' v') rest) k v
      exact ih (insertKV l k' v') hnd'

/-- Associativity of insert-folding (hash-table map overwrite-merge),
given that the middle table has no duplicate keys. -/
theorem insertAll_assoc (A B C : List (α × β)) (hB : nodupKeys B) :
    insertAll (insertAll A B) C = insertAll A (insertAll B C) := by
  induction C generalizing B with
  | nil => rfl
  | cons c rest ih =>
    obtain ⟨k, v⟩ := c
    show insertAll (insertKV (insertAll A B) k v) rest =
      insertAll A (insertAll (insertKV B k v) rest)
    rw [← insertAll_insertKV B k v A hB, ih (insertKV B k v) (nodupKeys_insertKV B k v hB)]

theorem lookupKV_eq_some_of_mem (l : List (α × β)) (k : α) (v : β)
    (hnd : nodupKeys l) (hmem : (k, v) ∈ l) : lookupKV l k = some v := by
  induction l with
  | nil => simp at hmem
  | cons kv rest ih =>
    obtain ⟨k', v'⟩ := kv
    have hnd' : nodupKeys rest := by
      unfold nodupKeys keysOf at hnd ⊢
      exact (List.nodup_cons.mp hnd).2
    rcases List.mem_cons.mp hmem with h | h
    · obtain ⟨h1, h2⟩ := Prod.mk.injEq .. ▸ h
      simp [lookupKV, h1.symm, h2]
    · have hk' : k' ∉ keysOf rest := by
        unfold nodupKeys keysOf at hnd
        exact (List.nodup_cons.mp hnd).1
      have : k' ≠ k := by
        intro he
        exact hk' (he ▸ List.mem_map_of_mem Prod.fst h)
      simp [lookupKV, this, ih hnd' h]

/-- Folding a list of pairs that are all already present is the identity. -/
theorem insertAll_of_all_present (P : List (α × β)) :
    ∀ l : List (α × β), (∀ kv ∈ P, lookupKV l kv.1 = some kv.2) → insertAll l P = l := by
  induction P with
  | nil => intro l _; rfl
  | cons kv rest ih =>
    intro l h
    obtain ⟨k, v⟩ := kv
    show insertAll (insertKV l k v) rest = l
    rw [insertKV_lookup_self l k v (h (k, v) (by simp))]
    exact ih l fun kv hm => h kv (by simp [hm])

/-- Folding a table into itself changes nothing (no duplicate keys). -/
theorem insertAll_self (B : List (α × β)) (hB : nodupKeys B) :
    insertAll B B = B :=
  insertAll_of_all_present B B fun kv hm => lookupKV_eq_some_of_mem B kv.1 kv.2 hB hm

/-- The doubled fold in the source's merge collapses to a single fold. -/
theorem insertAll_insertAll_self (A B : List (α × β)) (hB : nodupKeys B) :
    insertAll (insertAll A B) B = insertAll A B := by
  rw [insertAll_assoc A B B hB, insertAll_self B hB]

theorem insertAll_nodupKeys (A B : List (α × β)) (hA : nodupKeys A) :
    nodupKeys (insertAll A B) := by
  induction B generalizing A with
  | nil => exact hA
  | cons b rest ih => exact ih _ (nodupKeys_insertKV A b.1 b.2 hA)

/-- Folding a disjoint, duplicate-free list appends it. -/
theorem insertAll_append_of_disjoint (P : List (α × β)) :
    ∀ l : List (α × β), nodupKeys P → (∀ k ∈ keysOf P, k ∉ keysOf l) →
    insertAll l P = l ++ P := by
  induction P with
  | nil => intro l _ _; simp [insertAll]
  | cons kv rest ih =>
    intro l hnd hdis
    obtain ⟨k, v⟩ := kv
    have hk : k ∉ keysOf l := hdis k (by simp [keysOf])
    have hnd' : nodupKeys rest := by
      unfold nodupKeys keysOf at hnd ⊢
      exact (List.nodup_cons.mp hnd).2
    show insertAll (insertKV l k v) rest = l ++ (k, v) :: rest
    rw [insertKV_of_not_mem l k v hk, ih (l ++ [(k, v)]) hnd']
    · simp
    · intro a ha
      have hknotin : k ∉ keysOf rest := by
        unfold nodupKeys keysOf at hnd
        exact (List.nodup_cons.mp hnd).1
      have h1 : a ∉ keysOf l := hdis a (by rw [keysOf_cons]; exact List.mem_cons_of_mem _ ha)
      have h2 : a ≠ k := fun he => hknotin (he ▸ ha)
      rw [keysOf_append, keysOf_cons, keysOf_nil]
      simp [h1, h2]

/-- Round-trip: re-inserting the entries of a duplicate-free table into an
empty table rebuilds it. -/
theorem insertAll_nil (l : List (α × β)) (h : nodupKeys l) :
    insertAll [] l = l := by
  have := insertAll_append_of_disjoint l [] h (by simp [keysOf])
  simpa using this

/- Set-insert lemmas (for `persistent`). -/

theorem insertSet_of_mem (l : List α) (k : α) (h : k ∈ l) : insertSet l k = l := by
  induction l with
  | nil => simp at h
  | cons a rest ih =>
    by_cases h' : a = k
    · simp [insertSet, h']
    · rcases List.mem_cons.mp h with he | hm
      · exact absurd he.symm h'
      · simp [insertSet, h', ih hm]

theorem insertSet_of_not_mem (l : List α) (k : α) (h : k ∉ l) :
    insertSet l k = l ++ [k] := by
  induction l with
  | nil => simp [insertSet]
  | cons a rest ih =>
    simp at h
    have hne : ¬ a = k := fun he => h.1 he.symm
    simp [insertSet, hne, ih h.2]

theorem mem_insertSet (l : List α) (k a : α) (h : a ∈ l) : a ∈ insertSet l k := by
  by_cases hm : k ∈ l
  · rwa [insertSet_of_mem l k hm]
  · rw [insertSet_of_not_mem l k hm]; simp [h]

theorem self_mem_insertSet (l : List α) (a : α) : a ∈ insertSet l a := by
  by_cases h : a ∈ l
  · rwa [insertSet_of_mem l a h]
  · rw [insertSet_of_not_mem l a h]; simp

theorem mem_insertAllSet (rest : List α) :
    ∀ (l : List α) (a : α), a ∈ l → a ∈ insertAllSet l rest := by
  induction rest with
  | nil => intro l a h; exact h
  | cons r rs ih => intro l a h; exact ih _ _ (mem_insertSet _ _ _ h)

theorem insertAllSet_insertSet (bs : List α) (k : α) :
    ∀ l : List α, insertAllSet l (insertSet bs k) = insertSet (insertAllSet l bs) k := by
  induction bs with
  | nil => intro l; rfl
  | cons b rest ih =>
    intro l
    by_cases h : b = k
    · subst h
      have e1 : insertSet (b :: rest) b = b :: rest := by simp [insertSet]
      rw [e1]
      show insertAllSet (insertSet l b) rest =
        insertSet (insertAllSet (insertSet l b) rest) b
      rw [insertSet_of_mem _ b
            (mem_insertAllSet rest (insertSet l b) b (self_mem_insertSet l b))]
    · have e1 : insertSet (b :: rest) k = b :: insertSet rest k := by simp [insertSet, h]
      rw [e1]
      show insertAllSet (insertSet l b) (insertSet rest k) =
        insertSet (insertAllSet (insertSet l b) rest) k
      exact ih (insertSet l b)

theorem insertAllSet_assoc (A B C : List α) :
    insertAllSet (insertAllSet A B) C = insertAllSet A (insertAllSet B C) := by
  induction C generalizing B with
  | nil => rfl
  | cons c rest ih =>
    show insertAllSet (insertSet (insertAllSet A B) c) rest =
      insertAllSet A (insertAllSet (insertSet B c) rest)
    rw [← insertAllSet_insertSet B c A, ih (insertSet B c)]

theorem insertAllSet_append_of_disjoint (P : List α) :
    ∀ l : List α, P.Nodup → (∀ k ∈ P, k ∉ l) → insertAllSet l P = l ++ P := by
  induction P with
  | nil => intro l _ _; simp [insertAllSet]
  | cons k rest ih =>
    intro l hnd hdis
    show insertAllSet (insertSet l k) rest = l ++ k :: rest
    rw [insertSet_of_not_mem l k (hdis k (by simp)), ih (l ++ [k]) (List.nodup_cons.mp hnd).2]
    · simp
    · intro a ha
      simp
      exact ⟨hdis a (by simp [ha]), fun he => (List.nodup_cons.mp hnd).1 (he ▸ ha)⟩

theorem insertAllSet_nil (l : List α) (h : l.Nodup) : insertAllSet [] l = l := by
  simpa using insertAllSet_append_of_disjoint l [] h (by simp)

end AssocList

/-! ## String helpers

C strings are modelled through `String.data` (their character lists). -/

/-- `g_strdup_printf ("!%s", s)`. -/
def bangStr (s : String) : String := ⟨'!' :: s.data⟩

/-- `parse_negated`: strip one leading `'!'`, reporting whether it was there. -/
def parse_negated (s : String) : Bool × String :=
  match s.data with
  | '!' :: r => (true, ⟨r⟩)
  | _ => (false, s)

/-- The `cmp1`/`cmp2` adjustment in `flatpak_context_apply_generic_policy`:
skip a leading `'!'` before comparing. -/
def stripBang (s : String) : List Char :=
  match s.data with
  | '!' :: r => r
  | d => d

/-- `g_str_has_suffix`. -/
def hasSuffixCL (s suf : List Char) : Bool :=
  if suf.length ≤ s.length then decide (s.drop (s.length - suf.length) = suf) else false

/-! ## Bitmask names and conversions -/

/-- `flatpak_context_shares` (the name table). -/
def sharesNames : List String := ["network", "ipc"]

/-- `flatpak_context_sockets` (the name table). -/
def socketsNames : List String := ["x11", "wayland", "pulseaudio", "session-bus", "system-bus"]

/-- `flatpak_context_devices` (the name table). -/
def devicesNames : List String := ["dri", "all", "kvm"]

/-- `flatpak_context_features` (the name table). -/
def featuresNames : List String := ["devel", "multiarch"]

def bitmaskFromStringAux (name : String) : List String → Nat → Nat
  | [], _ => 0
  | n :: rest, i => if n = name then 1 <<< i else bitmaskFromStringAux name rest (i + 1)

/-- `flatpak_context_bitmask_from_string`: `1 << i` for the name's index,
`0` when the name is unknown. -/
def flatpak_context_bitmask_from_string (name : String) (names : List String) : Nat :=
  bitmaskFromStringAux name names 0

def bitmaskToStringAux (enabled valid : Nat) : List String → Nat → List String
  | [], _ => []
  | n :: rest, i =>
    (if valid &&& (1 <<< i) ≠ 0 then
      [if enabled &&& (1 <<< i) ≠ 0 then n else bangStr n]
     else []) ++ bitmaskToStringAux enabled valid rest (i + 1)

/-- `flatpak_context_bitmask_to_string`: one entry per valid bit, negated
with `'!'` when the bit is not enabled. -/
def flatpak_context_bitmask_to_string (enabled valid : Nat) (names : List String) :
    List String :=
  bitmaskToStringAux enabled valid names 0

/-- `a & ~b` on machine bitmasks, expressed with kernel-computable
operations (`a ^ (a & b)` clears exactly the bits of `a` that are in `b`). -/
def andNot (a b : Nat) : Nat := a ^^^ (a &&& b)

/-! ## The Context aggregate (`struct FlatpakContext`)

Hash tables become ordered association lists; `filesystems` values use
`0` for a `NULL` value (a `--nofilesystem` entry) and the
`FlatpakFilesystemMode` constants 1/2/3 otherwise; bus-policy values are
the `FlatpakPolicy` ordinals none=0, see=1, filtered=2, talk=3, own=4. -/

structure FlatpakContext where
  shares : Nat
  shares_valid : Nat
  sockets : Nat
  sockets_valid : Nat
  devices : Nat
  devices_valid : Nat
  features : Nat
  features_valid : Nat
  env_vars : List (String × String)
  persistent : List String
  filesystems : List (String × Nat)
  session_bus_policy : List (String × Nat)
  system_bus_policy : List (String × Nat)
  generic_policy : List (String × List String)
deriving DecidableEq, Repr

/-- `flatpak_context_new`. -/
def flatpak_context_new : FlatpakContext :=
  { shares := 0, shares_valid := 0, sockets := 0, sockets_valid := 0,
    devices := 0, devices_valid := 0, features := 0, features_valid := 0,
    env_vars := [], persistent := [], filesystems := [],
    session_bus_policy := [], system_bus_policy := [], generic_policy := [] }

def flatpak_context_add_shares (c : FlatpakContext) (s : Nat) : FlatpakContext :=
  { c with shares_valid := c.shares_valid ||| s, shares := c.shares ||| s }

def flatpak_context_remove_shares (c : FlatpakContext) (s : Nat) : FlatpakContext :=
  { c with shares_valid := c.shares_valid ||| s, shares := andNot c.shares s }

def flatpak_context_add_sockets (c : FlatpakContext) (s : Nat) : FlatpakContext :=
  { c with sockets_valid := c.sockets_valid ||| s, sockets := c.sockets ||| s }

def flatpak_context_remove_sockets (c : FlatpakContext) (s : Nat) : FlatpakContext :=
  { c with sockets_valid := c.sockets_valid ||| s, sockets := andNot c.sockets s }

def flatpak_context_add_devices (c : FlatpakContext) (s : Nat) : FlatpakContext :=
  { c with devices_valid := c.devices_valid ||| s, devices := c.devices ||| s }

def flatpak_context_remove_devices (c : FlatpakContext) (s : Nat) : FlatpakContext :=
  { c with devices_valid := c.devices_valid ||| s, devices := andNot c.devices s }

def flatpak_context_add_features (c : FlatpakContext) (s : Nat) : FlatpakContext :=
  { c with features_valid := c.features_valid ||| s, features := c.features ||| s }

def flatpak_context_remove_features (c : FlatpakContext) (s : Nat) : FlatpakContext :=
  { c with features_valid := c.features_valid ||| s, features := andNot c.features s }

def flatpak_context_set_env_var (c : FlatpakContext) (name value : String) :
    FlatpakContext :=
  { c with env_vars := insertKV c.env_vars name value }

def flatpak_context_set_session_bus_policy (c : FlatpakContext) (name : String)
    (policy : Nat) : FlatpakContext :=
  { c with session_bus_policy := insertKV c.session_bus_policy name policy }

def flatpak_context_set_system_bus_policy (c : FlatpakContext) (name : String)
    (policy : Nat) : FlatpakContext :=
  { c with system_bus_policy := insertKV c.system_bus_policy name policy }

def flatpak_context_set_persistent (c : FlatpakContext) (path : String) :
    FlatpakContext :=
  { c with persistent := insertSet c.persistent path }

/-- The filter loop of `flatpak_context_apply_generic_policy`: keep the old
entries whose bang-stripped form differs from the new value's. -/
def filterPolicyLoop : List String → String → List String
  | [], _ => []
  | o :: rest, v =>
    if stripBang o ≠ stripBang v then o :: filterPolicyLoop rest v
    else filterPolicyLoop rest v

/-- The new value list built by `flatpak_context_apply_generic_policy`. -/
def applyPolicyValue (old : List String) (v : String) : List String :=
  filterPolicyLoop old v ++ [v]

/-- `flatpak_context_apply_generic_policy`, at the level of the
`generic_policy` table. (The source asserts that `key` contains a `'.'`.) -/
def applyGenericPolicyList (gp : List (String × List String)) (key value : String) :
    List (String × List String) :=
  insertKV gp key (applyPolicyValue ((lookupKV gp key).getD []) value)

def flatpak_context_apply_generic_policy (c : FlatpakContext) (key value : String) :
    FlatpakContext :=
  { c with generic_policy := applyGenericPolicyList c.generic_policy key value }

/-! ## Filesystem expressions -/

/-- `parse_filesystem_flags`: strip one `:ro`/`:rw`/`:create` suffix and
report the mode (default read-write). -/
def parse_filesystem_flags (s : String) : String × Nat :=
  if hasSuffixCL s.data [':', 'r', 'o'] then (⟨s.data.take (s.data.length - 3)⟩, 1)
  else if hasSuffixCL s.data [':', 'r', 'w'] then (⟨s.data.take (s.data.length - 3)⟩, 2)
  else if hasSuffixCL s.data [':', 'c', 'r', 'e', 'a', 't', 'e'] then
    (⟨s.data.take (s.data.length - 7)⟩, 3)
  else (s, 2)

/-- The prefix of a filesystem expression up to the first `'/'`. -/
def fsPrefix (d : List Char) : List Char := d.takeWhile (· ≠ '/')

/-- The rest of a filesystem expression after the first `'/'`, with any
run of `'/'` stripped. -/
def fsRest (d : List Char) : List Char := (d.dropWhile (· ≠ '/')).dropWhile (· = '/')

/-- `get_xdg_dir_from_prefix`, validity only. -/
def get_xdg_dir_from_prefix_valid (pre : String) : Bool :=
  pre = "xdg-data" || pre = "xdg-cache" || pre = "xdg-config"

/-- `get_xdg_user_dir_from_string`, validity only (the config-key and
directory out-parameters are not needed to verify an expression). -/
def get_xdg_user_dir_from_string_valid (fs : String) : Bool :=
  let pre : String := ⟨fsPrefix fs.data⟩
  pre = "xdg-desktop" || pre = "xdg-documents" || pre = "xdg-download" ||
  pre = "xdg-music" || pre = "xdg-pictures" || pre = "xdg-public-share" ||
  pre = "xdg-templates" || pre = "xdg-videos" ||
  get_xdg_dir_from_prefix_valid pre ||
  (pre = "xdg-run" && fsRest fs.data ≠ [])

/-- The location checks of `flatpak_context_verify_filesystem`, applied
to the flag-stripped expression. -/
def fsLocationOk (fs : String) : Bool :=
  if fs = "host" then true
  else if fs = "home" then true
  else if get_xdg_user_dir_from_string_valid fs then true
  else if ['~', '/'].isPrefixOf fs.data then true
  else if ['/'].isPrefixOf fs.data then true
  else false

/-- `flatpak_context_verify_filesystem`. -/
def flatpak_context_verify_filesystem (s : String) : Bool :=
  fsLocationOk (parse_filesystem_flags s).1

def flatpak_context_add_filesystem (c : FlatpakContext) (what : String) :
    FlatpakContext :=
  let fm := parse_filesystem_flags what
  { c with filesystems := insertKV c.filesystems fm.1 fm.2 }

def flatpak_context_remove_filesystem (c : FlatpakContext) (what : String) :
    FlatpakContext :=
  { c with filesystems := insertKV c.filesystems (parse_filesystem_flags what).1 0 }

/-! ## Bus policies -/

/-- `flatpak_policy_from_string` (index in the policy table, error as `none`). -/
def flatpak_policy_from_string (s : String) : Option Nat :=
  if s = "none" then some 0
  else if s = "see" then some 1
  else if s = "filtered" then some 2
  else if s = "talk" then some 3
  else if s = "own" then some 4
  else none

/-- `flatpak_policy_to_string` (note: `filtered` has no case and falls
through to `"none"`). -/
def flatpak_policy_to_string (p : Nat) : String :=
  if p = 1 then "see"
  else if p = 3 then "talk"
  else if p = 4 then "own"
  else "none"

/-! ## Merge (`flatpak_context_merge`)

The source iterates `other->system_bus_policy` twice; that doubled loop is
kept. Generic policies are merged value-by-value through
`flatpak_context_apply_generic_policy`. -/

def mergeGenericPolicy (gp other : List (String × List String)) :
    List (String × List String) :=
  other.foldl (fun acc kv => kv.2.foldl (fun a2 v => applyGenericPolicyList a2 kv.1 v) acc) gp

def flatpak_context_merge (c other : FlatpakContext) : FlatpakContext :=
  { shares := andNot c.shares other.shares_valid ||| other.shares,
    shares_valid := c.shares_valid ||| other.shares_valid,
    sockets := andNot c.sockets other.sockets_valid ||| other.sockets,
    sockets_valid := c.sockets_valid ||| other.sockets_valid,
    devices := andNot c.devices other.devices_valid ||| other.devices,
    devices_valid := c.devices_valid ||| other.devices_valid,
    features := andNot c.features other.features_valid ||| other.features,
    features_valid := c.features_valid ||| other.features_valid,
    env_vars := insertAll c.env_vars other.env_vars,
    persistent := insertAllSet c.persistent other.persistent,
    filesystems := insertAll c.filesystems other.filesystems,
    session_bus_policy := insertAll c.session_bus_policy other.session_bus_policy,
    system_bus_policy :=
      insertAll (insertAll c.system_bus_policy other.system_bus_policy)
        other.system_bus_policy,
    generic_policy := mergeGenericPolicy c.generic_policy other.generic_policy }

/-! ## Metadata manifests (`GKeyFile` sections used by the Context)

A manifest is modelled as the sections/keys the Context code reads and
writes: the `[Context]` list keys, the two bus-policy sections, the
`[Environment]` section, and the `Policy <subsystem>` groups (stored as
`((subsystem, key), values)` entries). -/

structure Metadata where
  shared : Option (List String)
  sockets : Option (List String)
  devices : Option (List String)
  features : Option (List String)
  filesystems : Option (List String)
  persistent : Option (List String)
  session_bus_policy : List (String × String)
  system_bus_policy : List (String × String)
  environment : List (String × String)
  policy : List ((String × String) × List String)
deriving DecidableEq, Repr

/-- Does the string start with `'!'`? -/
def startsBang (s : String) : Bool :=
  match s.data with
  | '!' :: _ => true
  | _ => false

/-- `g_strsplit (key, ".", 2)`: the part before the first `'.'` and the
part after it (`none` when there is no dot; the source asserts there is). -/
def splitDotAux : List Char → Option (List Char × List Char)
  | [] => none
  | c :: rest =>
    if c = '.' then some ([], rest)
    else (splitDotAux rest).map (fun p => (c :: p.1, p.2))

/-- `"%s.%s"`: rebuild a generic-policy key from subsystem and key. -/
def joinDot (sub key : String) : String := ⟨sub.data ++ '.' :: key.data⟩

/-- Serialization of one bitset list (`shared`, `sockets`, …): the key is
removed (absent) when the list is empty. -/
def saveBitsetField (enabled valid : Nat) (names : List String) : Option (List String) :=
  let lst := flatpak_context_bitmask_to_string enabled valid names
  if lst.isEmpty then none else some lst

/-- One filesystem entry as serialized: `:ro` for read-only, `:create`
for create, the bare key for read-write, nothing for `NULL` (denied). -/
def fsEmit (kv : String × Nat) : Option String :=
  if kv.2 = 1 then some ⟨kv.1.data ++ [':', 'r', 'o']⟩
  else if kv.2 = 3 then some ⟨kv.1.data ++ [':', 'c', 'r', 'e', 'a', 't', 'e']⟩
  else if kv.2 ≠ 0 then some kv.1
  else none

/-- Serialization of the `filesystems` key. It is only written when the
hash table is nonempty (even if every entry is a denied one). -/
def saveFilesystemsField (fss : List (String × Nat)) : Option (List String) :=
  if fss.length > 0 then some (fss.filterMap fsEmit) else none

def savePersistentField (l : List String) : Option (List String) :=
  if l.length > 0 then some l else none

/-- Serialization of a bus-policy section: entries with policy `0` are
skipped, the rest go through `flatpak_policy_to_string`. -/
def savePolicies (pol : List (String × Nat)) : List (String × String) :=
  pol.filterMap (fun kv =>
    if kv.2 > 0 then some (kv.1, flatpak_policy_to_string kv.2) else none)

/-- One generic-policy entry as serialized: split the key at the first
`'.'`; with `flatten`, `'!'`-prefixed values are dropped; a key with no
remaining values is not written. -/
def sgpEmit (flatten : Bool) (kv : String × List String) :
    Option ((String × String) × List String) :=
  match splitDotAux kv.1.data with
  | none => none
  | some p =>
    if (kv.2.filter (fun v => !flatten || !(startsBang v))).length > 0 then
      some ((⟨p.1⟩, ⟨p.2⟩), kv.2.filter (fun v => !flatten || !(startsBang v)))
    else none

/-- Serialization of the generic-policy groups. -/
def saveGenericPolicy (flatten : Bool) (gp : List (String × List String)) :
    List ((String × String) × List String) :=
  gp.filterMap (sgpEmit flatten)

/-- `flatpak_context_save_metadata` into an empty key file. The local
`features_valid` is initialized from `context->features` — not
`context->features_valid` — exactly as in the source. -/
def flatpak_context_save_metadata (c : FlatpakContext) (flatten : Bool) : Metadata :=
  let shares_mask := c.shares
  let shares_valid := c.shares_valid
  let sockets_mask := c.sockets
  let sockets_valid := c.sockets_valid
  let devices_mask := c.devices
  let devices_valid := c.devices_valid
  let features_mask := c.features
  let features_valid := c.features
  let sh := if flatten then (shares_mask &&& shares_valid, shares_mask &&& shares_valid)
            else (shares_mask, shares_valid)
  let so := if flatten then (sockets_mask &&& sockets_valid, sockets_mask &&& sockets_valid)
            else (sockets_mask, sockets_valid)
  let de := if flatten then (devices_mask &&& devices_valid, devices_mask &&& devices_valid)
            else (devices_mask, devices_valid)
  let fe := if flatten then (features_mask &&& features_valid, features_mask &&& features_valid)
            else (features_mask, features_valid)
  { shared := saveBitsetField sh.1 sh.2 sharesNames,
    sockets := saveBitsetField so.1 so.2 socketsNames,
    devices := saveBitsetField de.1 de.2 devicesNames,
    features := saveBitsetField fe.1 fe.2 featuresNames,
    filesystems := saveFilesystemsField c.filesystems,
    persistent := savePersistentField c.persistent,
    session_bus_policy := savePolicies c.session_bus_policy,
    system_bus_policy := savePolicies c.system_bus_policy,
    environment := c.env_vars,
    policy := saveGenericPolicy flatten c.generic_policy }

/-! ## Loading metadata (`flatpak_context_load_metadata`) -/

/-- One entry of a bitset list: strip a `'!'`, look the name up, then
add or remove the bit (`0` from the lookup is the unknown-token error). -/
def parseBitEntry (names : List String) (e : String) (st : Nat × Nat) :
    Option (Nat × Nat) :=
  if flatpak_context_bitmask_from_string (parse_negated e).2 names = 0 then none
  else if (parse_negated e).1 then
    some (andNot st.1 (flatpak_context_bitmask_from_string (parse_negated e).2 names),
      st.2 ||| flatpak_context_bitmask_from_string (parse_negated e).2 names)
  else
    some (st.1 ||| flatpak_context_bitmask_from_string (parse_negated e).2 names,
      st.2 ||| flatpak_context_bitmask_from_string (parse_negated e).2 names)

def parseBitList (names : List String) : List String → Nat × Nat → Option (Nat × Nat)
  | [], st => some st
  | e :: rest, st =>
    match parseBitEntry names e st with
    | none => none
    | some st' => parseBitList names rest st'

def loadBitsetField (field : Option (List String)) (names : List String)
    (st : Nat × Nat) : Option (Nat × Nat) :=
  match field with
  | none => some st
  | some entries => parseBitList names entries st

/-- The `filesystems` entries: verify, then add (or remove when negated). -/
def parseFsList : List String → List (String × Nat) → Option (List (String × Nat))
  | [], acc => some acc
  | e :: rest, acc =>
    if flatpak_context_verify_filesystem (parse_negated e).2 then
      if (parse_negated e).1 then
        parseFsList rest (insertKV acc (parse_filesystem_flags (parse_negated e).2).1 0)
      else
        parseFsList rest (insertKV acc (parse_filesystem_flags (parse_negated e).2).1
          (parse_filesystem_flags (parse_negated e).2).2)
    else none

def loadFsField (field : Option (List String)) (acc : List (String × Nat)) :
    Option (List (String × Nat)) :=
  match field with
  | none => some acc
  | some entries => parseFsList entries acc

/-- A bus-policy section: names are checked by `flatpak_verify_dbus_name`
(GLib's bus-name validation, abstracted as the oracle `validName`), values
by `flatpak_policy_from_string`. -/
def parsePolicyList (validName : String → Bool) :
    List (String × String) → List (String × Nat) → Option (List (String × Nat))
  | [], acc => some acc
  | (k, v) :: rest, acc =>
    if validName k then
      match flatpak_policy_from_string v with
      | none => none
      | some p => parsePolicyList validName rest (insertKV acc k p)
    else none

/-- The `Policy <subsystem>` groups: each value is applied through
`flatpak_context_apply_generic_policy` with key `subsystem.key`. -/
def loadPolicyGroups : List ((String × String) × List String) →
    List (String × List String) → List (String × List String)
  | [], gp => gp
  | ((sub, key), vals) :: rest, gp =>
    loadPolicyGroups rest
      (vals.foldl (fun acc v => applyGenericPolicyList acc (joinDot sub key) v) gp)

/-- The `persistent` entries are added verbatim (no `'!'` handling). -/
def loadPersistentField (field : Option (List String)) (acc : List String) :
    List String :=
  match field with
  | none => acc
  | some es => es.foldl insertSet acc

/-- `flatpak_context_load_metadata`: merge the manifest into `c`
(a merge, not a replace), failing on the first bad token. -/
def flatpak_context_load_metadata (validName : String → Bool) (c : FlatpakContext)
    (m : Metadata) : Option FlatpakContext := do
  let shp ← loadBitsetField m.shared sharesNames (c.shares, c.shares_valid)
  let sop ← loadBitsetField m.sockets socketsNames (c.sockets, c.sockets_valid)
  let dep ← loadBitsetField m.devices devicesNames (c.devices, c.devices_valid)
  let fep ← loadBitsetField m.features featuresNames (c.features, c.features_valid)
  let fss ← loadFsField m.filesystems c.filesystems
  let pers := loadPersistentField m.persistent c.persistent
  let sess ← parsePolicyList validName m.session_bus_policy c.session_bus_policy
  let sys ← parsePolicyList validName m.system_bus_policy c.system_bus_policy
  let env := insertAll c.env_vars m.environment
  let gp := loadPolicyGroups m.policy c.generic_policy
  some { shares := shp.1, shares_valid := shp.2,
         sockets := sop.1, sockets_valid := sop.2,
         devices := dep.1, devices_valid := dep.2,
         features := fep.1, features_valid := fep.2,
         env_vars := env, persistent := pers, filesystems := fss,
         session_bus_policy := sess, system_bus_policy := sys,
         generic_policy := gp }

/-! ## The export planner

Paths are canonical absolute paths, modelled as their component lists
(`"/a/b"` is `["a", "b"]`; `flatpak_canonicalize_filename` and
`flatpak_has_path_prefix` act componentwise). The filesystem seen by
`lstat`/`flatpak_resolve_link` is a finite map from paths to nodes; a
symlink node carries its fully resolved absolute target, or `none` when
resolution fails. -/

def FAKE_MODE_DIR : Int := -1
def FAKE_MODE_TMPFS : Int := 0
/-- `G_MAXINT`. -/
def FAKE_MODE_SYMLINK : Int := 2147483647
def FLATPAK_FILESYSTEM_MODE_READ_ONLY : Int := 1
def FLATPAK_FILESYSTEM_MODE_READ_WRITE : Int := 2
def FLATPAK_FILESYSTEM_MODE_CREATE : Int := 3

abbrev Exports := List (List String × Int)

/-- `do_export_path`: on a re-export the numerically larger mode wins
(`ep->mode = MAX (old_ep->mode, mode)`). -/
def do_export_path (ex : Exports) (path : List String) (mode : Int) : Exports :=
  match lookupKV ex path with
  | some old => insertKV ex path (max old mode)
  | none => insertKV ex path mode

inductive FSNode
  | dir
  | file
  | sock
  | other
  | symlink (target : Option (List String))
deriving DecidableEq, Repr

abbrev FS := List (List String × FSNode)

def fsLookup (fs : FS) (p : List String) : Option FSNode := lookupKV fs p

def path_is_symlink (fs : FS) (p : List String) : Bool :=
  match fsLookup fs p with
  | some (.symlink _) => true
  | _ => false

/-- `flatpak_resolve_link` (helper-library symlink resolution, abstracted
as a lookup of the node's stored resolved target). -/
def flatpak_resolve_link (fs : FS) (p : List String) : Option (List String) :=
  match fsLookup fs p with
  | some (.symlink t) => t
  | _ => none

/-- `never_export_as_symlink`: only `/tmp`. -/
def never_export_as_symlink (p : List String) : Bool := p = ["tmp"]

/-- The `S_ISDIR/S_ISREG/S_ISLNK/S_ISSOCK` filter in `_exports_path_expose`. -/
def okNodeType : FSNode → Bool
  | .other => false
  | _ => true

def dont_export_in : List (List String) :=
  [["lib"], ["lib32"], ["lib64"], ["bin"], ["sbin"], ["usr"], ["etc"], ["app"], ["dev"]]

def dontExportCheck (path : List String) : Bool :=
  dont_export_in.any (fun pre => pre.isPrefixOf path)

/-- The symlink case of the prefix walk: resolve the link, recurse on the
resolved target plus the remaining components at `level + 1`, and on
success record the prefix as a symlink export. -/
def exposeSymlinkStep (fs : FS) (level : Nat)
    (recurse : List String → Nat → Exports → Option (Bool × Exports))
    (pre rest : List String) (ex : Exports) : Option (Bool × Exports) :=
  match flatpak_resolve_link fs pre with
  | none => some (false, ex)
  | some resolved =>
    match recurse (resolved ++ rest) (level + 1) ex with
    | none => none
    | some (b, ex') =>
      if b then some (true, do_export_path ex' pre FAKE_MODE_SYMLINK)
      else some (false, ex')

/-- The prefix walk of `_exports_path_expose`: `pre` is the prefix checked
in the current iteration, `rest` the remaining components; `recurse` is the
recursive call on the resolved target at `level + 1`. -/
def exposeGo (fs : FS) (mode : Int) (level : Nat)
    (recurse : List String → Nat → Exports → Option (Bool × Exports)) :
    List String → List String → Exports → Option (Bool × Exports)
  | pre, [], ex =>
    if path_is_symlink fs pre && !never_export_as_symlink pre then
      exposeSymlinkStep fs level recurse pre [] ex
    else some (true, do_export_path ex pre mode)
  | pre, r :: rs, ex =>
    if path_is_symlink fs pre && !never_export_as_symlink pre then
      exposeSymlinkStep fs level recurse pre (r :: rs) ex
    else exposeGo fs mode level recurse (pre ++ [r]) rs ex

/-- The body of `_exports_path_expose` after the level check: `lstat`,
node-type filter, the `dont_export_in` filter, then the prefix walk. -/
def exposeCheckAndWalk (fs : FS) (mode : Int) (level : Nat)
    (recurse : List String → Nat → Exports → Option (Bool × Exports))
    (path : List String) (ex : Exports) : Option (Bool × Exports) :=
  match fsLookup fs path with
  | none => some (false, ex)
  | some node =>
    if !okNodeType node then some (false, ex)
    else if dontExportCheck path then some (false, ex)
    else match path with
      | [] => some (true, do_export_path ex [] mode)
      | p :: ps => exposeGo fs mode level recurse [p] ps ex

/-- `_exports_path_expose`, with an explicit fuel for the recursion
(`none` = out of fuel; the level check `level > 40` bails before any
recursion can exhaust 42 units of fuel). -/
def _exports_path_expose (fs : FS) :
    Nat → Int → List String → Nat → Exports → Option (Bool × Exports)
  | 0, _, _, _, _ => none
  | Nat.succ f, mode, path, level, ex =>
    if level > 40 then some (false, ex)
    else exposeCheckAndWalk fs mode level
      (fun pa lv e => _exports_path_expose fs f mode pa lv e) path ex

/-- `exports_path_expose` (entry point, level 0; fuel 42 suffices). -/
def exports_path_expose (fs : FS) (mode : Int) (path : List String) (ex : Exports) :
    Option (Bool × Exports) :=
  _exports_path_expose fs 42 mode path 0 ex

/-- `exports_path_tmpfs`. -/
def exports_path_tmpfs (fs : FS) (path : List String) (ex : Exports) :
    Option (Bool × Exports) :=
  _exports_path_expose fs 42 FAKE_MODE_TMPFS path 0 ex

/-- `exports_path_dir`. -/
def exports_path_dir (fs : FS) (path : List String) (ex : Exports) :
    Option (Bool × Exports) :=
  _exports_path_expose fs 42 FAKE_MODE_DIR path 0 ex

/-- A failed symlink step leaves the export set unchanged, provided the
recursion callback does. -/
theorem exposeSymlinkStep_false_eq (fs : FS) (level : Nat)
    (recurse : List String → Nat → Exports → Option (Bool × Exports))
    (hrec : ∀ pa lv e e', recurse pa lv e = some (false, e') → e' = e)
    (pre rest : List String) (ex ex' : Exports)
    (h : exposeSymlinkStep fs level recurse pre rest ex = some (false, ex')) :
    ex' = ex := by
  unfold exposeSymlinkStep at h
  split at h
  · simp at h; exact h.symm
  · split at h
    · exact absurd h (by simp)
    · next b ex2 hr =>
      split at h
      · simp at h
      · next hb =>
        simp at h
        rw [Bool.not_eq_true] at hb
        exact h ▸ hrec _ _ _ _ (hb ▸ hr)

theorem exposeSymlinkStep_ne_none (fs : FS) (level : Nat)
    (recurse : List String → Nat → Exports → Option (Bool × Exports))
    (hrec : ∀ pa e, recurse pa (level + 1) e ≠ none)
    (pre rest : List String) (ex : Exports) :
    exposeSymlinkStep fs level recurse pre rest ex ≠ none := by
  unfold exposeSymlinkStep
  split
  · simp
  · next resolved _ =>
    cases hr : recurse (resolved ++ rest) (level + 1) ex with
    | none => exact absurd hr (hrec _ _)
    | some p =>
      obtain ⟨b, e2⟩ := p
      cases b <;> simp

/-- A failed `exposeGo` walk leaves the export set unchanged, provided the
recursion callback does. -/
theorem exposeGo_false_eq (fs : FS) (mode : Int) (level : Nat)
    (recurse : List String → Nat → Exports → Option (Bool × Exports))
    (hrec : ∀ pa lv e e', recurse pa lv e = some (false, e') → e' = e) :
    ∀ (rest pre : List String) (ex ex' : Exports),
      exposeGo fs mode level recurse pre rest ex = some (false, ex') → ex' = ex := by
  intro rest
  induction rest with
  | nil =>
    intro pre ex ex' h
    unfold exposeGo at h
    split at h
    · exact exposeSymlinkStep_false_eq fs level recurse hrec pre [] ex ex' h
    · simp at h
  | cons r rs ih =>
    intro pre ex ex' h
    unfold exposeGo at h
    split at h
    · exact exposeSymlinkStep_false_eq fs level recurse hrec pre (r :: rs) ex ex' h
    · exact ih (pre ++ [r]) ex ex' h

/-- `exposeGo` cannot run out of fuel if the callback cannot. -/
theorem exposeGo_ne_none (fs : FS) (mode : Int) (level : Nat)
    (recurse : List String → Nat → Exports → Option (Bool × Exports))
    (hrec : ∀ pa e, recurse pa (level + 1) e ≠ none) :
    ∀ (rest pre : List String) (ex : Exports),
      exposeGo fs mode level recurse pre rest ex ≠ none := by
  intro rest
  induction rest with
  | nil =>
    intro pre ex
    unfold exposeGo
    split
    · exact exposeSymlinkStep_ne_none fs level recurse hrec pre [] ex
    · simp
  | cons r rs ih =>
    intro pre ex
    unfold exposeGo
    split
    · exact exposeSymlinkStep_ne_none fs level recurse hrec pre (r :: rs) ex
    · exact ih (pre ++ [r]) ex

theorem exposeCheckAndWalk_false_eq (fs : FS) (mode : Int) (level : Nat)
    (recurse : List String → Nat → Exports → Option (Bool × Exports))
    (hrec : ∀ pa lv e e', recurse pa lv e = some (false, e') → e' = e)
    (path : List String) (ex ex' : Exports)
    (h : exposeCheckAndWalk fs mode level recurse path ex = some (false, ex')) :
    ex' = ex := by
  unfold exposeCheckAndWalk at h
  split at h
  · simp at h; exact h.symm
  · split at h
    · simp at h; exact h.symm
    · split at h
      · simp at h; exact h.symm
      · split at h
        · simp at h
        · exact exposeGo_false_eq fs mode level recurse hrec _ _ _ _ h

theorem exposeCheckAndWalk_ne_none (fs : FS) (mode : Int) (level : Nat)
    (recurse : List String → Nat → Exports → Option (Bool × Exports))
    (hrec : ∀ pa e, recurse pa (level + 1) e ≠ none)
    (path : List String) (ex : Exports) :
    exposeCheckAndWalk fs mode level recurse path ex ≠ none := by
  unfold exposeCheckAndWalk
  split
  · simp
  · split
    · simp
    · split
      · simp
      · split
        · simp
        · exact exposeGo_ne_none fs mode level recurse hrec _ _ _

/-- A failed expose request records nothing. -/
theorem exports_expose_false_eq (fs : FS) (mode : Int) :
    ∀ (f : Nat) (path : List String) (level : Nat) (ex ex' : Exports),
      _exports_path_expose fs f mode path level ex = some (false, ex') → ex' = ex := by
  intro f
  induction f with
  | zero => intro path level ex ex' h; exact absurd h (by simp [_exports_path_expose])
  | succ f ih =>
    intro path level ex ex' h
    unfold _exports_path_expose at h
    split at h
    · simp at h; exact h.symm
    · exact exposeCheckAndWalk_false_eq fs mode level _
        (fun pa lv e e' => ih pa lv e e') path ex ex' h

/-- Enough fuel: the recursion never exhausts `f` units of fuel while the
level budget `f + level > 41` holds. -/
theorem exports_expose_ne_none (fs : FS) (mode : Int) :
    ∀ (f : Nat) (path : List String) (level : Nat) (ex : Exports),
      41 < f + level → level ≤ 41 →
      _exports_path_expose fs f mode path level ex ≠ none := by
  intro f
  induction f with
  | zero => intro path level ex h1 h2; omega
  | succ f ih =>
    intro path level ex h1 h2
    unfold _exports_path_expose
    split
    · simp
    · next hlev =>
      simp at hlev
      exact exposeCheckAndWalk_ne_none fs mode level _
        (fun pa e => ih pa (level + 1) e (by omega) (by omega)) path ex

/-- C8: the recursive path-expose is bounded: a call at a level greater
than 40 fails immediately leaving the export set untouched; any failing
call records nothing for the requested path; and with the level budget
respected the recursion terminates (never exhausts its fuel) on every
input, symlink cycles included. -/
theorem exports_path_expose_bounded (fs : FS) (mode : Int) :
    (∀ (f : Nat) (path : List String) (level : Nat) (ex : Exports), 40 < level →
      _exports_path_expose fs (f + 1) mode path level ex = some (false, ex)) ∧
    (∀ (f : Nat) (path : List String) (level : Nat) (ex ex' : Exports),
      _exports_path_expose fs f mode path level ex = some (false, ex') → ex' = ex) ∧
    (∀ (f : Nat) (path : List String) (level : Nat) (ex : Exports),
      41 < f + level → level ≤ 41 →
      _exports_path_expose fs f mode path level ex ≠ none) := by
  refine ⟨?_, exports_expose_false_eq fs mode, exports_expose_ne_none fs mode⟩
  intro f path level ex h
  unfold _exports_path_expose
  simp [h]

/-- Witness for C8: on a filesystem where `/a` is a symlink cycle
(`a → a`), a call past the level cap fails unchanged, and the entry-point
fuel of 42 is never exhausted. -/
theorem exports_path_expose_bounded_witness :
    _exports_path_expose [(["a"], FSNode.symlink (some ["a"]))] (41 + 1) 1 ["a"] 41 []
      = some (false, []) ∧
    _exports_path_expose [(["a"], FSNode.symlink (some ["a"]))] 42 1 ["a"] 0 [] ≠ none :=
  ⟨(exports_path_expose_bounded [(["a"], FSNode.symlink (some ["a"]))] 1).1 41 ["a"] 41 []
      (by decide),
   (exports_path_expose_bounded [(["a"], FSNode.symlink (some ["a"]))] 1).2.2 42 ["a"] 0 []
      (by decide) (by decide)⟩

/-- C2 (counterexample): exposing `/p` read-only and then requesting a
tmpfs for `/p` leaves the read-only entry — the tmpfs sentinel (0) loses
to the read-only mode (1) under `MAX`, so it does not dominate. -/
theorem export_conflict_tmpfs_counterexample :
    exports_path_expose [(["p"], FSNode.file)] FLATPAK_FILESYSTEM_MODE_READ_ONLY ["p"] []
      = some (true, [(["p"], FLATPAK_FILESYSTEM_MODE_READ_ONLY)]) ∧
    exports_path_tmpfs [(["p"], FSNode.file)] ["p"]
        [(["p"], FLATPAK_FILESYSTEM_MODE_READ_ONLY)]
      = some (true, [(["p"], FLATPAK_FILESYSTEM_MODE_READ_ONLY)]) ∧
    FLATPAK_FILESYSTEM_MODE_READ_ONLY ≠ FAKE_MODE_TMPFS := by
  refine ⟨by decide, by decide, by decide⟩

/-- C2 (amended): re-recording a path combines the modes with `MAX`, so a
single entry remains and the numerically larger mode wins. In particular
read-only then read-write leaves one read-write entry, but a tmpfs request
(mode 0) after a permission export leaves the permission entry; only the
symlink sentinel (`G_MAXINT`) dominates everything. -/
theorem do_export_path_max_wins (ex : Exports) (p : List String) (m1 m2 : Int) :
    do_export_path (do_export_path ex p m1) p m2 = do_export_path ex p (max m1 m2) := by
  cases h : lookupKV ex p with
  | none =>
    simp only [do_export_path, h, lookupKV_insertKV_self, insertKV_insertKV_self]
  | some old =>
    simp only [do_export_path, h, lookupKV_insertKV_self, insertKV_insertKV_self,
      max_assoc]

/-! ## Seccomp filter construction (`setup_seccomp`)

The rule lists handed to `seccomp_rule_add`: an action, a syscall name and
an optional argument condition. -/

inductive SeccompAction
  | errnoEPERM
  | errnoEAFNOSUPPORT
deriving DecidableEq, Repr

inductive SeccompArgCond
  | a0NeAllowedPersonality
  | a0MaskedEqCloneNewuser
  | a1EqTIOCSTI
  | a0EqFamily (family : String)
  | a0GeFamily (family : String)
deriving DecidableEq, Repr

structure SeccompRule where
  action : SeccompAction
  scall : String
  argCond : Option SeccompArgCond
deriving DecidableEq, Repr

/-- `syscall_blacklist` in `setup_seccomp`. -/
def syscall_blacklist : List SeccompRule :=
  [⟨.errnoEPERM, "syslog", none⟩,
   ⟨.errnoEPERM, "uselib", none⟩,
   ⟨.errnoEPERM, "personality", some .a0NeAllowedPersonality⟩,
   ⟨.errnoEPERM, "acct", none⟩,
   ⟨.errnoEPERM, "modify_ldt", none⟩,
   ⟨.errnoEPERM, "quotactl", none⟩,
   ⟨.errnoEPERM, "add_key", none⟩,
   ⟨.errnoEPERM, "keyctl", none⟩,
   ⟨.errnoEPERM, "request_key", none⟩,
   ⟨.errnoEPERM, "move_pages", none⟩,
   ⟨.errnoEPERM, "mbind", none⟩,
   ⟨.errnoEPERM, "get_mempolicy", none⟩,
   ⟨.errnoEPERM, "set_mempolicy", none⟩,
   ⟨.errnoEPERM, "migrate_pages", none⟩,
   ⟨.errnoEPERM, "unshare", none⟩,
   ⟨.errnoEPERM, "mount", none⟩,
   ⟨.errnoEPERM, "pivot_root", none⟩,
   ⟨.errnoEPERM, "clone", some .a0MaskedEqCloneNewuser⟩,
   ⟨.errnoEPERM, "ioctl", some .a1EqTIOCSTI⟩]

/-- `syscall_nondevel_blacklist` in `setup_seccomp`. -/
def syscall_nondevel_blacklist : List SeccompRule :=
  [⟨.errnoEPERM, "perf_event_open", none⟩,
   ⟨.errnoEPERM, "ptrace", none⟩]

/-- `socket_family_blacklist`: equality rules for each family, the last
entry using `SCMP_CMP_GE` (`AF_NETLINK + 1`). -/
def socket_family_blacklist_rules : List SeccompRule :=
  [⟨.errnoEAFNOSUPPORT, "socket", some (.a0EqFamily "AF_AX25")⟩,
   ⟨.errnoEAFNOSUPPORT, "socket", some (.a0EqFamily "AF_IPX")⟩,
   ⟨.errnoEAFNOSUPPORT, "socket", some (.a0EqFamily "AF_APPLETALK")⟩,
   ⟨.errnoEAFNOSUPPORT, "socket", some (.a0EqFamily "AF_NETROM")⟩,
   ⟨.errnoEAFNOSUPPORT, "socket", some (.a0EqFamily "AF_BRIDGE")⟩,
   ⟨.errnoEAFNOSUPPORT, "socket", some (.a0EqFamily "AF_ATMPVC")⟩,
   ⟨.errnoEAFNOSUPPORT, "socket", some (.a0EqFamily "AF_X25")⟩,
   ⟨.errnoEAFNOSUPPORT, "socket", some (.a0EqFamily "AF_ROSE")⟩,
   ⟨.errnoEAFNOSUPPORT, "socket", some (.a0EqFamily "AF_DECnet")⟩,
   ⟨.errnoEAFNOSUPPORT, "socket", some (.a0EqFamily "AF_NETBEUI")⟩,
   ⟨.errnoEAFNOSUPPORT, "socket", some (.a0EqFamily "AF_SECURITY")⟩,
   ⟨.errnoEAFNOSUPPORT, "socket", some (.a0EqFamily "AF_KEY")⟩,
   ⟨.errnoEAFNOSUPPORT, "socket", some (.a0GeFamily "AF_NETLINK + 1")⟩]

/-- The EPERM rules added by `setup_seccomp`: the base blacklist always,
the non-devel supplement only when `devel` is false. -/
def setup_seccomp_eperm_rules (devel : Bool) : List SeccompRule :=
  syscall_blacklist ++ (if devel then [] else syscall_nondevel_blacklist)

/-- C5: EPERM rules for `perf_event_open` and `ptrace` are installed
exactly when the devel feature is not allowed; with devel allowed only
the base block list is installed; and in both cases an EPERM rule for
`ioctl` with second argument `TIOCSTI` is installed. -/
theorem setup_seccomp_devel_rules (devel : Bool) :
    ((∃ r ∈ setup_seccomp_eperm_rules devel,
        r.scall = "perf_event_open" ∧ r.action = .errnoEPERM) ↔ devel = false) ∧
    ((∃ r ∈ setup_seccomp_eperm_rules devel,
        r.scall = "ptrace" ∧ r.action = .errnoEPERM) ↔ devel = false) ∧
    (setup_seccomp_eperm_rules true = syscall_blacklist) ∧
    ((⟨.errnoEPERM, "ioctl", some .a1EqTIOCSTI⟩ : SeccompRule) ∈
        setup_seccomp_eperm_rules devel) := by
  cases devel <;> refine ⟨?_, ?_, ?_, ?_⟩ <;> decide

/-! ## Generic-policy dedupe (C6) -/

theorem filterPolicyLoop_eq_filter (old : List String) (v : String) :
    filterPolicyLoop old v = old.filter (fun o => decide (stripBang o ≠ stripBang v)) := by
  induction old with
  | nil => rfl
  | cons o rest ih =>
    by_cases h : stripBang o ≠ stripBang v <;> simp [filterPolicyLoop, h, ih]

theorem stripBang_bangStr (x : String) : stripBang (bangStr x) = x.data := rfl

theorem startsBang_bangStr (x : String) : startsBang (bangStr x) = true := rfl

theorem stripBang_of_not_bang (x : String) (hx : startsBang x = false) :
    stripBang x = x.data := by
  unfold stripBang
  split
  · next r heq =>
    exfalso
    unfold startsBang at hx
    rw [heq] at hx
    simp at hx
  · rfl

/-- C6: applying a generic-policy value removes exactly the entries whose
bang-stripped form equals the new value's, preserves the remaining
insertion order, and appends the value; consequently applying `x` then
`!x` (or `!x` then `x`) leaves a single occurrence of the pair, the
last-applied one. -/
theorem apply_generic_policy_dedupe (l : List String) (x : String)
    (hx : startsBang x = false) :
    (∀ v : String, applyPolicyValue l v =
      l.filter (fun o => decide (stripBang o ≠ stripBang v)) ++ [v]) ∧
    applyPolicyValue (applyPolicyValue l x) (bangStr x) =
      l.filter (fun o => decide (stripBang o ≠ x.data)) ++ [bangStr x] ∧
    applyPolicyValue (applyPolicyValue l (bangStr x)) x =
      l.filter (fun o => decide (stripBang o ≠ x.data)) ++ [x] := by
  have hchar : ∀ (m : List String) (v : String), applyPolicyValue m v =
      m.filter (fun o => decide (stripBang o ≠ stripBang v)) ++ [v] := by
    intro m v
    unfold applyPolicyValue
    rw [filterPolicyLoop_eq_filter]
  have hsx : stripBang x = x.data := stripBang_of_not_bang x hx
  have hfilter2 : ∀ (m : List String),
      (m.filter (fun o => decide (stripBang o ≠ x.data))).filter
        (fun o => decide (stripBang o ≠ x.data)) =
      m.filter (fun o => decide (stripBang o ≠ x.data)) := by
    intro m
    induction m with
    | nil => rfl
    | cons a t ih => by_cases h : stripBang a ≠ x.data <;> simp [h, ih]
  refine ⟨hchar l, ?_, ?_⟩
  · rw [hchar l x, hchar _ (bangStr x), stripBang_bangStr, hsx,
      List.filter_append, hfilter2]
    simp [hsx]
  · rw [hchar l (bangStr x), hchar _ x, stripBang_bangStr, hsx,
      List.filter_append, hfilter2]
    simp [stripBang_bangStr]

/-- Witness for C6 at a concrete policy list. -/
theorem apply_generic_policy_dedupe_witness :
    startsBang "MTP" = false ∧
    applyPolicyValue (applyPolicyValue ["USB", "!MTP"] "MTP") (bangStr "MTP") =
      ["USB", "!MTP"].filter (fun o => decide (stripBang o ≠ "MTP".data)) ++
        [bangStr "MTP"] :=
  ⟨by decide, (apply_generic_policy_dedupe ["USB", "!MTP"] "MTP" (by decide)).2.1⟩

/-! ## X11 argument construction (`flatpak_run_add_x11_args`)

The environment vector is an association list; `DISPLAY` comes from
`g_getenv` and is passed as a parameter. This models the build without
`ENABLE_XAUTH` (the optional Xauthority propagation block). -/

def g_environ_unsetenv (env : List (String × String)) (name : String) :
    List (String × String) :=
  env.filter (fun kv => decide (kv.1 ≠ name))

def g_environ_setenv (env : List (String × String)) (name value : String) :
    List (String × String) :=
  insertKV env name value

/-- The x11-allowed branch of `flatpak_run_add_x11_args`: examine
`DISPLAY`, and when it is a local `:<n>` display bind the host socket as
`X99` and point `DISPLAY` at `:99.0`. -/
def x11AllowedCase (base : List String) (env : List (String × String))
    (display : Option String) : List String × List (String × String) :=
  match display with
  | none => (base, g_environ_unsetenv env "DISPLAY")
  | some d =>
    match d.data with
    | ':' :: c :: rest =>
      if c.isDigit then
        let digits := (c :: rest).takeWhile Char.isDigit
        let socket : String := ⟨"/tmp/.X11-unix/X".data ++ digits⟩
        (base ++ ["--bind", socket, "/tmp/.X11-unix/X99"],
         g_environ_setenv env "DISPLAY" ":99.0")
      else (base, g_environ_unsetenv env "DISPLAY")
    | _ => (base, g_environ_unsetenv env "DISPLAY")

def flatpak_run_add_x11_args (argv : List String) (env : List (String × String))
    (display : Option String) (allowed : Bool) :
    List String × List (String × String) :=
  let base := argv ++ ["--tmpfs", "/tmp/.X11-unix"]
  if !allowed then (base, g_environ_unsetenv env "DISPLAY")
  else x11AllowedCase base env display

theorem x11AllowedCase_fst (base : List String) (env : List (String × String))
    (display : Option String) :
    ∃ t e, x11AllowedCase base env display = (base ++ t, e) := by
  unfold x11AllowedCase
  split
  · exact ⟨[], g_environ_unsetenv env "DISPLAY", by simp⟩
  · split
    · split
      · exact ⟨_, _, rfl⟩
      · exact ⟨[], g_environ_unsetenv env "DISPLAY", by simp⟩
    · exact ⟨[], g_environ_unsetenv env "DISPLAY", by simp⟩

/-- C9: the launcher always emits `--tmpfs /tmp/.X11-unix` (masking the
host's X11 socket directory even when host `/tmp` is accessible), and when
x11 is not granted it emits exactly that — no socket bind — and removes
`DISPLAY` from the environment. -/
theorem x11_always_tmpfs_and_unset_display (argv : List String)
    (env : List (String × String)) (display : Option String) (allowed : Bool) :
    ((argv ++ ["--tmpfs", "/tmp/.X11-unix"]) <+:
      (flatpak_run_add_x11_args argv env display allowed).1) ∧
    (allowed = false →
      flatpak_run_add_x11_args argv env display allowed =
        (argv ++ ["--tmpfs", "/tmp/.X11-unix"], g_environ_unsetenv env "DISPLAY")) := by
  constructor
  · unfold flatpak_run_add_x11_args
    cases allowed
    · exact List.prefix_refl _
    · obtain ⟨t, e, he⟩ := x11AllowedCase_fst (argv ++ ["--tmpfs", "/tmp/.X11-unix"])
        env display
      simp only [Bool.not_true, Bool.false_eq_true, if_false, he]
      exact List.prefix_append _ _
  · intro h
    subst h
    rfl

/-- Witness for C9 at a concrete invocation with x11 not granted. -/
theorem x11_always_tmpfs_witness :
    (([] ++ ["--tmpfs", "/tmp/.X11-unix"]) <+:
      (flatpak_run_add_x11_args [] [("DISPLAY", ":0"), ("HOME", "/root")]
        (some ":0") false).1) ∧
    flatpak_run_add_x11_args [] [("DISPLAY", ":0"), ("HOME", "/root")]
        (some ":0") false =
      (["--tmpfs", "/tmp/.X11-unix"], [("HOME", "/root")]) :=
  ⟨(x11_always_tmpfs_and_unset_display [] [("DISPLAY", ":0"), ("HOME", "/root")]
      (some ":0") false).1,
   ((x11_always_tmpfs_and_unset_display [] [("DISPLAY", ":0"), ("HOME", "/root")]
      (some ":0") false).2 rfl).trans (by decide)⟩

/-! ## Document-portal file forwarding (`add_rest_args`)

GLib/GIO path handling is abstracted through oracles: `visible` is
`flatpak_exports_path_is_visible`, `forward` is `forward_file` (returning
the document id, `none` on error), `fileAbs`/`fileOfUri` are the
`g_file_new_for_path`/`g_file_new_for_uri` + `get_path` resolution, and
`toUri` is `g_filename_to_uri`. -/

/-- `g_file_get_basename` on an absolute path string. -/
def basenameOf (p : String) : String := ⟨(p.data.reverse.takeWhile (· ≠ '/')).reverse⟩

def add_rest_args_loop (ff canF : Bool) (visible : String → Bool)
    (forward : String → Option String) (docMount : String)
    (fileAbs fileOfUri toUri : String → String) :
    List String → Bool → Bool → List String → Option (List String)
  | [], _, _, acc => some acc
  | a :: rest, forwarding, forwardingUri, acc =>
    if ff && (a = "@@" || a = "@@u") then
      add_rest_args_loop ff canF visible forward docMount fileAbs fileOfUri toUri
        rest (!forwarding) (a = "@@u") acc
    else
      let file : Option String :=
        if canF && forwarding then
          if forwardingUri then
            if "file:".data.isPrefixOf a.data then some (fileOfUri a)
            else if a.data.head? = some '/' then some (fileAbs a)
            else none
          else some (fileAbs a)
        else none
      match file with
      | some p =>
        if !visible p then
          match forward p with
          | none => none
          | some docId =>
            let docPath : String :=
              ⟨docMount.data ++ '/' :: docId.data ++ '/' :: (basenameOf p).data⟩
            let docPath := if forwardingUri then toUri docPath else docPath
            add_rest_args_loop ff canF visible forward docMount fileAbs fileOfUri toUri
              rest forwarding forwardingUri (acc ++ [docPath])
        else
          add_rest_args_loop ff canF visible forward docMount fileAbs fileOfUri toUri
            rest forwarding forwardingUri (acc ++ [a])
      | none =>
        add_rest_args_loop ff canF visible forward docMount fileAbs fileOfUri toUri
          rest forwarding forwardingUri (acc ++ [a])

/-- `can_forward` in `add_rest_args`: cleared when file forwarding is on
but the document-portal mount path is missing or the portal proxy cannot
be created. -/
def add_rest_args_can_forward (ff : Bool) (mountPath : Option String)
    (proxyOk : Bool) : Bool :=
  if ff && mountPath.isNone then false
  else if ff && !proxyOk then false
  else true

def add_rest_args (ff : Bool) (mountPath : Option String) (proxyOk : Bool)
    (visible : String → Bool) (forward : String → Option String)
    (fileAbs fileOfUri toUri : String → String) (args : List String) :
    Option (List String) :=
  add_rest_args_loop ff (add_rest_args_can_forward ff mountPath proxyOk)
    visible forward (mountPath.getD "") fileAbs fileOfUri toUri args false false []

theorem add_rest_args_loop_no_forward (visible : String → Bool)
    (forward : String → Option String) (docMount : String)
    (fileAbs fileOfUri toUri : String → String) :
    ∀ (args : List String) (forwarding forwardingUri : Bool) (acc : List String),
      add_rest_args_loop true false visible forward docMount fileAbs fileOfUri toUri
        args forwarding forwardingUri acc =
      some (acc ++ args.filter (fun a => !(a = "@@" || a = "@@u"))) := by
  intro args
  induction args with
  | nil => intro f u acc; simp [add_rest_args_loop]
  | cons a rest ih =>
    intro f u acc
    by_cases h : a = "@@" ∨ a = "@@u"
    · have hb : (a = "@@" || a = "@@u") = true := by
        rcases h with h | h <;> simp [h]
      unfold add_rest_args_loop
      rw [show (true && (a = "@@" || a = "@@u")) = true by simp [hb]]
      simp only [if_true]
      rw [ih (!f) (a = "@@u") acc, List.filter_cons, hb]
      simp
    · have hb : (a = "@@" || a = "@@u") = false := by
        push_neg at h
        simp [h.1, h.2]
      unfold add_rest_args_loop
      rw [show (true && (a = "@@" || a = "@@u")) = false by simp [hb]]
      simp only [Bool.false_eq_true, if_false, Bool.false_and]
      rw [ih f u (acc ++ [a]), List.filter_cons, hb]
      simp

/-- C10: with file forwarding enabled but the document portal unreachable
(no mount path, or the portal proxy cannot be created), `add_rest_args`
still succeeds: the `@@`/`@@u` tokens are removed and every other argument
is passed through unchanged, with no document-id rewriting and no error. -/
theorem add_rest_args_portal_unreachable (mountPath : Option String) (proxyOk : Bool)
    (visible : String → Bool) (forward : String → Option String)
    (fileAbs fileOfUri toUri : String → String) (args : List String)
    (h : mountPath = none ∨ proxyOk = false) :
    add_rest_args true mountPath proxyOk visible forward fileAbs fileOfUri toUri args =
      some (args.filter (fun a => !(a = "@@" || a = "@@u"))) := by
  have hcan : add_rest_args_can_forward true mountPath proxyOk = false := by
    rcases h with h | h
    · subst h; rfl
    · subst h; cases mountPath <;> rfl
  unfold add_rest_args
  rw [hcan]
  simpa using add_rest_args_loop_no_forward visible forward (mountPath.getD "")
    fileAbs fileOfUri toUri args false false []

/-- Witness for C10: a concrete forwarding-span invocation with the portal
mount path missing. -/
theorem add_rest_args_portal_unreachable_witness :
    add_rest_args true none true (fun _ => true) (fun _ => none) id id id
        ["@@", "/outside/path", "other.txt", "@@"] =
      some ["/outside/path", "other.txt"] :=
  (add_rest_args_portal_unreachable none true (fun _ => true) (fun _ => none) id id id
      ["@@", "/outside/path", "other.txt", "@@"] (Or.inl rfl)).trans (by decide)

/-! ## The bitset invariant (C7): enabled bits lie within the valid mask -/

theorem testBit_andNot (a b : Nat) (i : Nat) :
    (andNot a b).testBit i = (a.testBit i && !(b.testBit i)) := by
  unfold andNot
  rw [Nat.testBit_xor, Nat.testBit_land]
  cases a.testBit i <;> cases b.testBit i <;> rfl

theorem land_subset_or_or (b v s : Nat) (h : b &&& v = b) :
    (b ||| s) &&& (v ||| s) = b ||| s := by
  apply Nat.eq_of_testBit_eq
  intro i
  have hb := congrArg (Nat.testBit · i) h
  simp only [Nat.testBit_land, Nat.testBit_lor] at hb ⊢
  cases hbi : b.testBit i <;> cases hvi : v.testBit i <;> cases s.testBit i <;>
    simp_all

theorem land_subset_andNot_or (b v s : Nat) (h : b &&& v = b) :
    andNot b s &&& (v ||| s) = andNot b s := by
  apply Nat.eq_of_testBit_eq
  intro i
  have hb := congrArg (Nat.testBit · i) h
  simp only [Nat.testBit_land, Nat.testBit_lor, testBit_andNot] at hb ⊢
  cases hbi : b.testBit i <;> cases hvi : v.testBit i <;> cases s.testBit i <;>
    simp_all

theorem land_subset_merge (ab av bb bv : Nat) (ha : ab &&& av = ab)
    (hb : bb &&& bv = bb) :
    (andNot ab bv ||| bb) &&& (av ||| bv) = andNot ab bv ||| bb := by
  apply Nat.eq_of_testBit_eq
  intro i
  have ha' := congrArg (Nat.testBit · i) ha
  have hb' := congrArg (Nat.testBit · i) hb
  simp only [Nat.testBit_land, Nat.testBit_lor, testBit_andNot] at ha' hb' ⊢
  cases hab : ab.testBit i <;> cases hav : av.testBit i <;> cases hbb : bb.testBit i <;>
    cases hbv : bv.testBit i <;> simp_all

/-- The invariant: every enabled bit is valid, for all four bitsets. -/
def ContextInv (c : FlatpakContext) : Prop :=
  c.shares &&& c.shares_valid = c.shares ∧
  c.sockets &&& c.sockets_valid = c.sockets ∧
  c.devices &&& c.devices_valid = c.devices ∧
  c.features &&& c.features_valid = c.features

theorem parseBitEntry_inv (names : List String) (e : String) (st st' : Nat × Nat)
    (hst : st.1 &&& st.2 = st.1) (h : parseBitEntry names e st = some st') :
    st'.1 &&& st'.2 = st'.1 := by
  unfold parseBitEntry at h
  split at h
  · exact absurd h (by simp)
  · split at h
    · simp only [Option.some.injEq] at h
      exact h ▸ land_subset_andNot_or st.1 st.2 _ hst
    · simp only [Option.some.injEq] at h
      exact h ▸ land_subset_or_or st.1 st.2 _ hst

theorem parseBitList_inv (names : List String) :
    ∀ (entries : List String) (st st' : Nat × Nat),
      st.1 &&& st.2 = st.1 → parseBitList names entries st = some st' →
      st'.1 &&& st'.2 = st'.1 := by
  intro entries
  induction entries with
  | nil =>
    intro st st' hst h
    simp [parseBitList] at h
    exact h ▸ hst
  | cons e rest ih =>
    intro st st' hst h
    unfold parseBitList at h
    split at h
    · exact absurd h (by simp)
    · next st2 hentry => exact ih st2 st' (parseBitEntry_inv names e st st2 hst hentry) h

theorem loadBitsetField_inv (field : Option (List String)) (names : List String)
    (st st' : Nat × Nat) (hst : st.1 &&& st.2 = st.1)
    (h : loadBitsetField field names st = some st') : st'.1 &&& st'.2 = st'.1 := by
  cases field with
  | none => simp [loadBitsetField] at h; exact h ▸ hst
  | some entries => exact parseBitList_inv names entries st st' hst h

/-- Contexts reachable through the public Context operations. -/
inductive ContextReachable : FlatpakContext → Prop
  | new : ContextReachable flatpak_context_new
  | add_shares (c s) : ContextReachable c → ContextReachable (flatpak_context_add_shares c s)
  | remove_shares (c s) : ContextReachable c →
      ContextReachable (flatpak_context_remove_shares c s)
  | add_sockets (c s) : ContextReachable c →
      ContextReachable (flatpak_context_add_sockets c s)
  | remove_sockets (c s) : ContextReachable c →
      ContextReachable (flatpak_context_remove_sockets c s)
  | add_devices (c s) : ContextReachable c →
      ContextReachable (flatpak_context_add_devices c s)
  | remove_devices (c s) : ContextReachable c →
      ContextReachable (flatpak_context_remove_devices c s)
  | add_features (c s) : ContextReachable c →
      ContextReachable (flatpak_context_add_features c s)
  | remove_features (c s) : ContextReachable c →
      ContextReachable (flatpak_context_remove_features c s)
  | set_env_var (c n v) : ContextReachable c →
      ContextReachable (flatpak_context_set_env_var c n v)
  | set_session_bus_policy (c n p) : ContextReachable c →
      ContextReachable (flatpak_context_set_session_bus_policy c n p)
  | set_system_bus_policy (c n p) : ContextReachable c →
      ContextReachable (flatpak_context_set_system_bus_policy c n p)
  | set_persistent (c p) : ContextReachable c →
      ContextReachable (flatpak_context_set_persistent c p)
  | apply_generic_policy (c k v) : ContextReachable c →
      ContextReachable (flatpak_context_apply_generic_policy c k v)
  | add_filesystem (c w) : ContextReachable c →
      ContextReachable (flatpak_context_add_filesystem c w)
  | remove_filesystem (c w) : ContextReachable c →
      ContextReachable (flatpak_context_remove_filesystem c w)
  | load_metadata (c c' validName m) : ContextReachable c →
      flatpak_context_load_metadata validName c m = some c' → ContextReachable c'
  | merge (a b) : ContextReachable a → ContextReachable b →
      ContextReachable (flatpak_context_merge a b)

/-- C7: every context produced by any sequence of the public operations
(creation, add/remove of shares, sockets, devices and features, metadata
load, the option setters, merge) keeps every enabled bit inside the
corresponding valid mask. -/
theorem context_bits_subset_valid (c : FlatpakContext) (h : ContextReachable c) :
    ContextInv c := by
  induction h with
  | new => exact ⟨rfl, rfl, rfl, rfl⟩
  | add_shares c s _ ih =>
    exact ⟨land_subset_or_or _ _ s ih.1, ih.2.1, ih.2.2.1, ih.2.2.2⟩
  | remove_shares c s _ ih =>
    exact ⟨land_subset_andNot_or _ _ s ih.1, ih.2.1, ih.2.2.1, ih.2.2.2⟩
  | add_sockets c s _ ih =>
    exact ⟨ih.1, land_subset_or_or _ _ s ih.2.1, ih.2.2.1, ih.2.2.2⟩
  | remove_sockets c s _ ih =>
    exact ⟨ih.1, land_subset_andNot_or _ _ s ih.2.1, ih.2.2.1, ih.2.2.2⟩
  | add_devices c s _ ih =>
    exact ⟨ih.1, ih.2.1, land_subset_or_or _ _ s ih.2.2.1, ih.2.2.2⟩
  | remove_devices c s _ ih =>
    exact ⟨ih.1, ih.2.1, land_subset_andNot_or _ _ s ih.2.2.1, ih.2.2.2⟩
  | add_features c s _ ih =>
    exact ⟨ih.1, ih.2.1, ih.2.2.1, land_subset_or_or _ _ s ih.2.2.2⟩
  | remove_features c s _ ih =>
    exact ⟨ih.1, ih.2.1, ih.2.2.1, land_subset_andNot_or _ _ s ih.2.2.2⟩
  | set_env_var c n v _ ih => exact ih
  | set_session_bus_policy c n p _ ih => exact ih
  | set_system_bus_policy c n p _ ih => exact ih
  | set_persistent c p _ ih => exact ih
  | apply_generic_policy c k v _ ih => exact ih
  | add_filesystem c w _ ih => exact ih
  | remove_filesystem c w _ ih => exact ih
  | load_metadata c c' validName m _ hload ih =>
    unfold flatpak_context_load_metadata at hload
    simp only [Option.bind_eq_bind, Option.bind] at hload
    cases h1 : loadBitsetField m.shared sharesNames (c.shares, c.shares_valid) with
    | none => rw [h1] at hload; exact absurd hload (by simp)
    | some shp =>
      rw [h1] at hload
      cases h2 : loadBitsetField m.sockets socketsNames (c.sockets, c.sockets_valid) with
      | none => rw [h2] at hload; exact absurd hload (by simp)
      | some sop =>
        rw [h2] at hload
        cases h3 : loadBitsetField m.devices devicesNames (c.devices, c.devices_valid) with
        | none => rw [h3] at hload; exact absurd hload (by simp)
        | some dep =>
          rw [h3] at hload
          cases h4 : loadBitsetField m.features featuresNames
              (c.features, c.features_valid) with
          | none => rw [h4] at hload; exact absurd hload (by simp)
          | some fep =>
            rw [h4] at hload
            cases h5 : loadFsField m.filesystems c.filesystems with
            | none => rw [h5] at hload; exact absurd hload (by simp)
            | some fss =>
              rw [h5] at hload
              cases h6 : parsePolicyList validName m.session_bus_policy
                  c.session_bus_policy with
              | none => rw [h6] at hload; exact absurd hload (by simp)
              | some sess =>
                rw [h6] at hload
                cases h7 : parsePolicyList validName m.system_bus_policy
                    c.system_bus_policy with
                | none => rw [h7] at hload; exact absurd hload (by simp)
                | some sys =>
                  rw [h7] at hload
                  simp only [Option.some.injEq] at hload
                  subst hload
                  exact ⟨loadBitsetField_inv _ _ _ _ ih.1 h1,
                    loadBitsetField_inv _ _ _ _ ih.2.1 h2,
                    loadBitsetField_inv _ _ _ _ ih.2.2.1 h3,
                    loadBitsetField_inv _ _ _ _ ih.2.2.2 h4⟩
  | merge a b _ _ iha ihb =>
    exact ⟨land_subset_merge _ _ _ _ iha.1 ihb.1,
      land_subset_merge _ _ _ _ iha.2.1 ihb.2.1,
      land_subset_merge _ _ _ _ iha.2.2.1 ihb.2.2.1,
      land_subset_merge _ _ _ _ iha.2.2.2 ihb.2.2.2⟩

/-- Witness for C7 on a concretely built context (share added, socket
removed, then merged with a devel-feature context). -/
theorem context_bits_subset_valid_witness :
    ContextInv (flatpak_context_merge
      (flatpak_context_remove_sockets (flatpak_context_add_shares flatpak_context_new 1) 5)
      (flatpak_context_add_features flatpak_context_new 1)) :=
  context_bits_subset_valid _
    (ContextReachable.merge _ _
      (ContextReachable.remove_sockets _ 5 (ContextReachable.add_shares _ 1 .new))
      (ContextReachable.add_features _ 1 .new))

/-! ## Further association-list lemmas (for merge associativity) -/

section AssocList2

variable {α : Type} [DecidableEq α] {β : Type}

theorem lookupKV_eq_none_of_not_mem (l : List (α × β)) (k : α)
    (h : k ∉ keysOf l) : lookupKV l k = none := by
  induction l with
  | nil => rfl
  | cons kv rest ih =>
    obtain ⟨k', v'⟩ := kv
    rw [keysOf_cons, List.mem_cons] at h
    push_neg at h
    have hne : ¬ k' = k := fun he => h.1 he.symm
    simp [lookupKV, hne, ih h.2]

theorem exists_decomp_of_mem_keysOf (l : List (α × β)) (k : α)
    (h : k ∈ keysOf l) :
    ∃ l₁ v l₂, l = l₁ ++ (k, v) :: l₂ ∧ k ∉ keysOf l₁ := by
  induction l with
  | nil => simp at h
  | cons kv rest ih =>
    obtain ⟨k', v'⟩ := kv
    by_cases hk : k' = k
    · exact ⟨[], v', rest, by simp [hk], by simp⟩
    · rw [keysOf_cons, List.mem_cons] at h
      rcases h with h | h
      · exact absurd h.symm hk
      · obtain ⟨l₁, v, l₂, he, hn⟩ := ih h
        refine ⟨(k', v') :: l₁, v, l₂, by simp [he], ?_⟩
        rw [keysOf_cons, List.mem_cons]
        push_neg
        exact ⟨fun he2 => hk he2.symm, hn⟩

theorem not_mem_right_of_nodup_decomp (l₁ l₂ : List (α × β)) (k : α) (v : β)
    (h : nodupKeys (l₁ ++ (k, v) :: l₂)) : k ∉ keysOf l₂ := by
  have h2 : (keysOf l₁ ++ k :: keysOf l₂).Nodup := by
    rw [← keysOf_cons, ← keysOf_append]; exact h
  exact (List.nodup_cons.mp h2.of_append_right).1

theorem lookupKV_append_cons (l₁ l₂ : List (α × β)) (k : α) (v : β)
    (h : k ∉ keysOf l₁) : lookupKV (l₁ ++ (k, v) :: l₂) k = some v := by
  induction l₁ with
  | nil => simp [lookupKV]
  | cons kv rest ih =>
    obtain ⟨k', v'⟩ := kv
    rw [keysOf_cons, List.mem_cons] at h
    push_neg at h
    simp only [List.cons_append, lookupKV]
    rw [if_neg (fun he : k' = k => h.1 he.symm)]
    exact ih h.2

theorem insertKV_append_cons (l₁ l₂ : List (α × β)) (k : α) (v w : β)
    (h : k ∉ keysOf l₁) : insertKV (l₁ ++ (k, v) :: l₂) k w = l₁ ++ (k, w) :: l₂ := by
  induction l₁ with
  | nil => simp [insertKV]
  | cons kv rest ih =>
    obtain ⟨k', v'⟩ := kv
    rw [keysOf_cons, List.mem_cons] at h
    push_neg at h
    simp only [List.cons_append, insertKV]
    rw [if_neg (fun he : k' = k => h.1 he.symm)]
    exact congrArg (List.cons (k', v')) (ih h.2)

theorem mem_insertKV_elim (l : List (α × β)) (k : α) (v : β) (kv' : α × β)
    (h : kv' ∈ insertKV l k v) : kv' ∈ l ∨ kv' = (k, v) := by
  induction l with
  | nil =>
    refine Or.inr ?_
    simpa [insertKV] using h
  | cons kv rest ih =>
    obtain ⟨k', v'⟩ := kv
    by_cases hk : k' = k
    · subst hk
      simp only [insertKV, if_pos rfl] at h
      rcases List.mem_cons.mp h with h2 | h2
      · exact Or.inr h2
      · exact Or.inl (List.mem_cons_of_mem _ h2)
    · simp only [insertKV, if_neg hk] at h
      rcases List.mem_cons.mp h with h2 | h2
      · exact Or.inl (h2 ▸ List.mem_cons_self _ _)
      · rcases ih h2 with h3 | h3
        · exact Or.inl (List.mem_cons_of_mem _ h3)
        · exact Or.inr h3

theorem self_mem_keysOf_insertKV (l : List (α × β)) (k : α) (v : β) :
    k ∈ keysOf (insertKV l k v) := by
  rw [keysOf_insertKV]
  split
  · assumption
  · simp

end AssocList2

/-! ## Generic-policy merge lemmas (for C3)

`flatpak_context_apply_generic_policy` removes all entries that compare
equal with the leading `'!'` stripped and appends the new value; the key
algebraic fact is that this per-value application makes the per-key merge
associative. -/

/-- The keep-predicate of the apply loop. -/
def policyKeeps (v w : String) : Bool := decide (stripBang w ≠ stripBang v)

theorem applyPolicyValue_eq_filter (a : List String) (v : String) :
    applyPolicyValue a v = a.filter (policyKeeps v) ++ [v] := by
  unfold applyPolicyValue policyKeeps
  rw [filterPolicyLoop_eq_filter]

theorem applyPolicyValue_ne_nil (a : List String) (v : String) :
    applyPolicyValue a v ≠ [] := by
  simp [applyPolicyValue]

/-- Folding a list of values into one stored value list. -/
def applyAllValues (a : List String) (vs : List String) : List String :=
  vs.foldl applyPolicyValue a

theorem applyAllValues_append (a : List String) (xs ys : List String) :
    applyAllValues a (xs ++ ys) = applyAllValues (applyAllValues a xs) ys :=
  List.foldl_append ..

theorem filter_policyKeeps_idem (a : List String) (v : String) :
    (a.filter (policyKeeps v)).filter (policyKeeps v) = a.filter (policyKeeps v) := by
  induction a with
  | nil => rfl
  | cons w rest ih =>
    by_cases h : policyKeeps v w = true <;> simp [List.filter_cons, h, ih]

theorem filter_policyKeeps_comm (a : List String) (v w : String) :
    (a.filter (policyKeeps w)).filter (policyKeeps v) =
    (a.filter (policyKeeps v)).filter (policyKeeps w) := by
  induction a with
  | nil => rfl
  | cons x rest ih =>
    by_cases h1 : policyKeeps w x = true <;> by_cases h2 : policyKeeps v x = true <;>
      simp [List.filter_cons, h1, h2, ih]

theorem filter_policyKeeps_congr (a : List String) (v w : String)
    (h : stripBang w = stripBang v) :
    a.filter (policyKeeps w) = a.filter (policyKeeps v) := by
  induction a with
  | nil => rfl
  | cons x rest ih =>
    have : policyKeeps w x = policyKeeps v x := by
      unfold policyKeeps
      rw [h]
    rw [List.filter_cons, List.filter_cons, this, ih]

/-- Filtering by a value's keep-predicate commutes past the fold: values
with the same bang-stripped form are absorbed by the filter. -/
theorem filter_applyAllValues (vs : List String) :
    ∀ (a : List String) (v : String),
      (applyAllValues a vs).filter (policyKeeps v) =
      applyAllValues (a.filter (policyKeeps v)) (vs.filter (policyKeeps v)) := by
  induction vs with
  | nil => intro a v; rfl
  | cons w rest ih =>
    intro a v
    show (applyAllValues (applyPolicyValue a w) rest).filter (policyKeeps v) = _
    rw [ih (applyPolicyValue a w) v]
    by_cases h : policyKeeps v w = true
    · rw [List.filter_cons, if_pos h]
      show _ = applyAllValues (applyPolicyValue (a.filter (policyKeeps v)) w) (rest.filter (policyKeeps v))
      rw [applyPolicyValue_eq_filter, applyPolicyValue_eq_filter,
        List.filter_append, filter_policyKeeps_comm]
      simp [h]
    · rw [List.filter_cons, if_neg h]
      have hsw : stripBang w = stripBang v := by
        unfold policyKeeps at h
        simpa using h
      rw [applyPolicyValue_eq_filter, List.filter_append,
        filter_policyKeeps_congr _ _ _ hsw, filter_policyKeeps_idem]
      have : List.filter (policyKeeps v) [w] = [] := by
        simp [List.filter_cons, h]
      rw [this, List.append_nil]

/-- The per-value fold is compatible with a pre-applied value: applying
`v` after folding `cur` equals folding `cur` already deduped by `v` plus
`v`. -/
theorem applyAllValues_applyPolicyValue (a cur : List String) (v : String) :
    applyAllValues a (applyPolicyValue cur v) =
    applyPolicyValue (applyAllValues a cur) v := by
  rw [applyPolicyValue_eq_filter cur v, applyAllValues_append]
  show applyPolicyValue (applyAllValues a (cur.filter (policyKeeps v))) v = _
  rw [applyPolicyValue_eq_filter, applyPolicyValue_eq_filter,
    filter_applyAllValues, filter_applyAllValues, filter_policyKeeps_idem]

/-- Folding a list of values at one key (the inner loop of the generic
merge). -/
def applyGPValues (X : List (String × List String)) (k : String)
    (vs : List String) : List (String × List String) :=
  vs.foldl (fun a2 v => applyGenericPolicyList a2 k v) X

theorem mergeGenericPolicy_cons (gp : List (String × List String))
    (k : String) (vs : List String) (rest : List (String × List String)) :
    mergeGenericPolicy gp ((k, vs) :: rest) =
    mergeGenericPolicy (applyGPValues gp k vs) rest := rfl

theorem mergeGenericPolicy_append (gp : List (String × List String))
    (l₁ l₂ : List (String × List String)) :
    mergeGenericPolicy gp (l₁ ++ l₂) =
    mergeGenericPolicy (mergeGenericPolicy gp l₁) l₂ :=
  List.foldl_append ..

theorem mem_keysOf_applyGP (X : List (String × List String)) (k k2 : String)
    (v : String) (h : k ∈ keysOf X) :
    k ∈ keysOf (applyGenericPolicyList X k2 v) :=
  mem_keysOf_insertKV _ _ _ _ h

theorem self_mem_keysOf_applyGP (X : List (String × List String)) (k v) :
    k ∈ keysOf (applyGenericPolicyList X k v) :=
  self_mem_keysOf_insertKV _ _ _

theorem mem_keysOf_applyGPValues (vs : List String) :
    ∀ (X : List (String × List String)) (k k2 : String), k ∈ keysOf X →
      k ∈ keysOf (applyGPValues X k2 vs) := by
  induction vs with
  | nil => intro X k k2 h; exact h
  | cons v rest ih =>
    intro X k k2 h
    exact ih _ k k2 (mem_keysOf_applyGP X k k2 v h)

theorem nodupKeys_applyGP (X : List (String × List String)) (k v)
    (h : nodupKeys X) : nodupKeys (applyGenericPolicyList X k v) :=
  nodupKeys_insertKV _ _ _ h

theorem nodupKeys_applyGPValues (vs : List String) :
    ∀ (X : List (String × List String)) (k : String), nodupKeys X →
      nodupKeys (applyGPValues X k vs) := by
  induction vs with
  | nil => intro X k h; exact h
  | cons v rest ih => intro X k h; exact ih _ k (nodupKeys_applyGP X k v h)

theorem values_ne_nil_applyGP (X : List (String × List String)) (k v)
    (h : ∀ kv ∈ X, kv.2 ≠ []) :
    ∀ kv ∈ applyGenericPolicyList X k v, kv.2 ≠ [] := by
  intro kv hmem
  rcases mem_insertKV_elim _ _ _ _ hmem with h2 | h2
  · exact h kv h2
  · rw [h2]
    exact applyPolicyValue_ne_nil _ _

theorem values_ne_nil_applyGPValues (vs : List String) :
    ∀ (X : List (String × List String)) (k : String), (∀ kv ∈ X, kv.2 ≠ []) →
      ∀ kv ∈ applyGPValues X k vs, kv.2 ≠ [] := by
  induction vs with
  | nil => intro X k h; exact h
  | cons v rest ih => intro X k h; exact ih _ k (values_ne_nil_applyGP X k v h)

/-- Folding a nonempty value list at key `k` is one insert of the folded
value. -/
theorem applyGPValues_eq_insertKV (vs : List String) :
    ∀ (X : List (String × List String)) (k : String), vs ≠ [] →
      applyGPValues X k vs =
        insertKV X k (applyAllValues ((lookupKV X k).getD []) vs) := by
  induction vs with
  | nil => intro X k h; exact absurd rfl h
  | cons v rest ih =>
    intro X k _
    cases rest with
    | nil =>
      show applyGenericPolicyList X k v = _
      rfl
    | cons r rs =>
      show applyGPValues (applyGenericPolicyList X k v) k (r :: rs) = _
      rw [ih (applyGenericPolicyList X k v) k (List.cons_ne_nil r rs)]
      unfold applyGenericPolicyList
      rw [lookupKV_insertKV_self, Option.getD_some, insertKV_insertKV_self]
      rfl

/-- Two applies at distinct keys commute when the first key is present. -/
theorem applyGP_comm (X : List (String × List String)) (k k2 v v2 : String)
    (hne : k ≠ k2) (hmem : k ∈ keysOf X) :
    applyGenericPolicyList (applyGenericPolicyList X k2 v2) k v =
    applyGenericPolicyList (applyGenericPolicyList X k v) k2 v2 := by
  unfold applyGenericPolicyList
  rw [lookupKV_insertKV_ne _ _ _ _ (Ne.symm hne), lookupKV_insertKV_ne _ _ _ _ hne,
    insertKV_comm_of_mem X k k2 _ _ hne hmem]

/-- An apply at a present key commutes past a value fold at another key. -/
theorem applyGP_applyGPValues_comm (vs2 : List String) :
    ∀ (X : List (String × List String)) (k k2 v : String), k ≠ k2 →
      k ∈ keysOf X →
      applyGenericPolicyList (applyGPValues X k2 vs2) k v =
      applyGPValues (applyGenericPolicyList X k v) k2 vs2 := by
  induction vs2 with
  | nil => intro X k k2 v _ _; rfl
  | cons v2 rest ih =>
    intro X k k2 v hne hmem
    show applyGenericPolicyList (applyGPValues (applyGenericPolicyList X k2 v2) k2 rest) k v = _
    rw [ih _ k k2 v hne (mem_keysOf_applyGP X k k2 v2 hmem),
      applyGP_comm X k k2 v v2 hne hmem]
    rfl

/-- An apply at a key absent from the remaining groups commutes past the
group fold. -/
theorem applyGP_mergeGenericPolicy_comm (B₂ : List (String × List String)) :
    ∀ (X : List (String × List String)) (k v : String), k ∉ keysOf B₂ →
      k ∈ keysOf X →
      applyGenericPolicyList (mergeGenericPolicy X B₂) k v =
      mergeGenericPolicy (applyGenericPolicyList X k v) B₂ := by
  induction B₂ with
  | nil => intro X k v _ _; rfl
  | cons g rest ih =>
    intro X k v hk hmem
    obtain ⟨k2, vs2⟩ := g
    rw [keysOf_cons, List.mem_cons] at hk
    push_neg at hk
    rw [mergeGenericPolicy_cons, mergeGenericPolicy_cons,
      ih _ k v hk.2 (mem_keysOf_applyGPValues vs2 X k k2 hmem),
      applyGP_applyGPValues_comm vs2 X k k2 v hk.1 hmem]

/-- The central step: merging an updated table equals merging then
applying the update. -/
theorem mergeGP_applyGP (A B : List (String × List String)) (k v : String)
    (hnd : nodupKeys B) (hne : ∀ kv ∈ B, kv.2 ≠ []) :
    mergeGenericPolicy A (applyGenericPolicyList B k v) =
    applyGenericPolicyList (mergeGenericPolicy A B) k v := by
  by_cases hk : k ∈ keysOf B
  · obtain ⟨B₁, cur, B₂, hB, hk1⟩ := exists_decomp_of_mem_keysOf B k hk
    have hk2 : k ∉ keysOf B₂ := not_mem_right_of_nodup_decomp B₁ B₂ k cur (hB ▸ hnd)
    have hlook : lookupKV B k = some cur := hB ▸ lookupKV_append_cons B₁ B₂ k cur hk1
    have hcur : cur ≠ [] := hne (k, cur) (hB ▸ by simp)
    have h1 : applyGenericPolicyList B k v = B₁ ++ (k, applyPolicyValue cur v) :: B₂ := by
      unfold applyGenericPolicyList
      rw [hlook, Option.getD_some, hB, insertKV_append_cons B₁ B₂ k cur _ hk1]
    have hM : ∀ L : List String,
        mergeGenericPolicy A (B₁ ++ (k, L) :: B₂) =
        mergeGenericPolicy (applyGPValues (mergeGenericPolicy A B₁) k L) B₂ := by
      intro L
      rw [mergeGenericPolicy_append, mergeGenericPolicy_cons]
    rw [h1, hM, hB, hM cur]
    have hXk : k ∈ keysOf (applyGPValues (mergeGenericPolicy A B₁) k cur) := by
      rw [applyGPValues_eq_insertKV cur _ k hcur]
      exact self_mem_keysOf_insertKV _ _ _
    rw [applyGP_mergeGenericPolicy_comm B₂ _ k v hk2 hXk]
    congr 1
    rw [applyGPValues_eq_insertKV _ _ _ (applyPolicyValue_ne_nil cur v),
      applyGPValues_eq_insertKV cur _ k hcur]
    unfold applyGenericPolicyList
    rw [lookupKV_insertKV_self, insertKV_insertKV_self, Option.getD_some,
      applyAllValues_applyPolicyValue]
  · have hlook : lookupKV B k = none := lookupKV_eq_none_of_not_mem B k hk
    have h1 : applyGenericPolicyList B k v = B ++ [(k, [v])] := by
      unfold applyGenericPolicyList
      rw [hlook, insertKV_of_not_mem B k _ hk]
      rfl
    rw [h1, mergeGenericPolicy_append]
    rfl

theorem mergeGP_applyGPValues (vs : List String) :
    ∀ (A B : List (String × List String)) (k : String), nodupKeys B →
      (∀ kv ∈ B, kv.2 ≠ []) →
      mergeGenericPolicy A (applyGPValues B k vs) =
      applyGPValues (mergeGenericPolicy A B) k vs := by
  induction vs with
  | nil => intro A B k _ _; rfl
  | cons v rest ih =>
    intro A B k hnd hne
    show mergeGenericPolicy A (applyGPValues (applyGenericPolicyList B k v) k rest) = _
    rw [ih A _ k (nodupKeys_applyGP B k v hnd) (values_ne_nil_applyGP B k v hne),
      mergeGP_applyGP A B k v hnd hne]
    rfl

/-- Associativity of the generic-policy merge (exact, as ordered tables),
for a middle table without duplicate keys or empty value lists. -/
theorem mergeGenericPolicy_assoc (C : List (String × List String)) :
    ∀ (A B : List (String × List String)), nodupKeys B →
      (∀ kv ∈ B, kv.2 ≠ []) →
      mergeGenericPolicy (mergeGenericPolicy A B) C =
      mergeGenericPolicy A (mergeGenericPolicy B C) := by
  induction C with
  | nil => intro A B _ _; rfl
  | cons g rest ih =>
    intro A B hnd hne
    obtain ⟨k, vs⟩ := g
    rw [mergeGenericPolicy_cons, mergeGenericPolicy_cons,
      ← mergeGP_applyGPValues vs A B k hnd hne,
      ih A _ (nodupKeys_applyGPValues vs B k hnd) (values_ne_nil_applyGPValues vs B k hne)]

/-! ## Bitset merge associativity -/

theorem merge_bits_assoc (ab bb cb bv cv : Nat) :
    andNot (andNot ab bv ||| bb) cv ||| cb =
    andNot ab (bv ||| cv) ||| (andNot bb cv ||| cb) := by
  apply Nat.eq_of_testBit_eq
  intro i
  simp only [Nat.testBit_lor, testBit_andNot]
  cases ab.testBit i <;> cases bb.testBit i <;> cases cb.testBit i <;>
    cases bv.testBit i <;> cases cv.testBit i <;> rfl

/-- The doubled system-bus fold is associative given duplicate-free middle
and right tables. -/
theorem insertAll_double_assoc {α β : Type} [DecidableEq α]
    (A B C : List (α × β)) (hB : nodupKeys B) (hC : nodupKeys C) :
    insertAll (insertAll (insertAll (insertAll A B) B) C) C =
    insertAll (insertAll A (insertAll (insertAll B C) C))
      (insertAll (insertAll B C) C) := by
  rw [insertAll_insertAll_self A B hB, insertAll_insertAll_self (insertAll A B) C hC,
    insertAll_insertAll_self B C hC,
    insertAll_insertAll_self A (insertAll B C) (insertAll_nodupKeys B C hB),
    insertAll_assoc A B C hB]

/-- C3: context merge is associative — on every field, including
`generic_policy` exactly (not merely modulo deduplication) — whenever the
middle context's hash-table maps are duplicate-free with nonempty
generic-policy value lists (as every hash table is), and the right
context's system-bus table is duplicate-free (needed because the source
iterates `other->system_bus_policy` twice). -/
theorem flatpak_context_merge_assoc (A B C : FlatpakContext)
    (hBenv : nodupKeys B.env_vars)
    (hBfs : nodupKeys B.filesystems)
    (hBsess : nodupKeys B.session_bus_policy)
    (hBsys : nodupKeys B.system_bus_policy)
    (hCsys : nodupKeys C.system_bus_policy)
    (hBgp : nodupKeys B.generic_policy)
    (hBgpne : ∀ kv ∈ B.generic_policy, kv.2 ≠ []) :
    flatpak_context_merge (flatpak_context_merge A B) C =
    flatpak_context_merge A (flatpak_context_merge B C) := by
  simp only [flatpak_context_merge, FlatpakContext.mk.injEq]
  refine ⟨merge_bits_assoc .., Nat.lor_assoc .., merge_bits_assoc ..,
    Nat.lor_assoc .., merge_bits_assoc .., Nat.lor_assoc ..,
    merge_bits_assoc .., Nat.lor_assoc ..,
    insertAll_assoc _ _ _ hBenv, insertAllSet_assoc .., insertAll_assoc _ _ _ hBfs,
    insertAll_assoc _ _ _ hBsess, insertAll_double_assoc _ _ _ hBsys hCsys,
    mergeGenericPolicy_assoc _ _ _ hBgp hBgpne⟩

/-- A sample context for the C3 witness. -/
def mergeSampleA : FlatpakContext :=
  { flatpak_context_new with
      shares := 1
      shares_valid := 3
      env_vars := [("E", "1")]
      generic_policy := [("a.k", ["x", "!y"])] }

/-- A sample context for the C3 witness. -/
def mergeSampleB : FlatpakContext :=
  { flatpak_context_new with
      shares := 2
      shares_valid := 2
      env_vars := [("E", "2"), ("F", "3")]
      persistent := ["p"]
      filesystems := [("home", 2)]
      session_bus_policy := [("n.a", 3)]
      system_bus_policy := [("n.b", 4)]
      generic_policy := [("a.k", ["!x"]), ("b.k", ["z"])] }

/-- A sample context for the C3 witness. -/
def mergeSampleC : FlatpakContext :=
  { flatpak_context_new with
      shares_valid := 1
      system_bus_policy := [("n.b", 1)]
      generic_policy := [("a.k", ["y"])] }

/-- Witness for C3 on concrete contexts exercising every field, including
an `x` vs `!x` generic-policy collision across the three merges. -/
theorem flatpak_context_merge_assoc_witness :
    flatpak_context_merge (flatpak_context_merge mergeSampleA mergeSampleB)
        mergeSampleC =
      flatpak_context_merge mergeSampleA
        (flatpak_context_merge mergeSampleB mergeSampleC) :=
  flatpak_context_merge_assoc mergeSampleA mergeSampleB mergeSampleC (by decide)
    (by decide) (by decide) (by decide) (by decide) (by decide) (by decide)

/-! ## Round-trip lemmas (C1, C4) -/

theorem parse_negated_of_not_bang (s : String) (h : startsBang s = false) :
    parse_negated s = (false, s) := by
  unfold parse_negated
  split
  · next r heq =>
    exfalso
    unfold startsBang at h
    rw [heq] at h
    simp at h
  · rfl

theorem data_mk (l : List Char) : (String.mk l).data = l := rfl

theorem startsBang_mk_append (k : String) (suf : List Char)
    (hk : startsBang k = false) (hne : k.data ≠ []) :
    startsBang ⟨k.data ++ suf⟩ = false := by
  unfold startsBang at hk ⊢
  cases hd : k.data with
  | nil => exact absurd hd hne
  | cons c rest =>
    rw [hd] at hk
    rw [data_mk, List.cons_append]
    split
    · next x heq =>
      injection heq with h1 _
      subst h1
      exact Bool.noConfusion hk
    · rfl

theorem hasSuffixCL_append (k suf : List Char) : hasSuffixCL (k ++ suf) suf = true := by
  unfold hasSuffixCL
  rw [if_pos (by simp)]
  simp only [List.length_append]
  rw [show k.length + suf.length - suf.length = k.length by omega, List.drop_left]
  simp

theorem hasSuffixCL_append_short (k suf₁ suf₂ : List Char)
    (h : suf₁.length ≤ suf₂.length) :
    hasSuffixCL (k ++ suf₂) suf₁ = hasSuffixCL suf₂ suf₁ := by
  unfold hasSuffixCL
  rw [if_pos (by rw [List.length_append]; omega), if_pos h]
  simp only [List.length_append]
  rw [show k.length + suf₂.length - suf₁.length = k.length + (suf₂.length - suf₁.length)
      by omega, ← List.drop_drop, List.drop_left]

theorem parse_flags_ro (k : String) :
    parse_filesystem_flags ⟨k.data ++ [':', 'r', 'o']⟩ = (k, 1) := by
  unfold parse_filesystem_flags
  rw [show (⟨k.data ++ [':', 'r', 'o']⟩ : String).data = k.data ++ [':', 'r', 'o']
      from rfl]
  rw [hasSuffixCL_append k.data [':', 'r', 'o'], if_pos rfl]
  have ht : (k.data ++ [':', 'r', 'o']).take ((k.data ++ [':', 'r', 'o']).length - 3)
      = k.data := by
    rw [List.length_append, show ([':', 'r', 'o'] : List Char).length = 3 from rfl,
      Nat.add_sub_cancel, List.take_left]
  rw [ht]

theorem parse_flags_create (k : String) :
    parse_filesystem_flags ⟨k.data ++ [':', 'c', 'r', 'e', 'a', 't', 'e']⟩ = (k, 3) := by
  unfold parse_filesystem_flags
  rw [show (⟨k.data ++ [':', 'c', 'r', 'e', 'a', 't', 'e']⟩ : String).data =
      k.data ++ [':', 'c', 'r', 'e', 'a', 't', 'e'] from rfl]
  have h1 : hasSuffixCL (k.data ++ [':', 'c', 'r', 'e', 'a', 't', 'e']) [':', 'r', 'o']
      = false :=
    (hasSuffixCL_append_short k.data _ _ (by decide)).trans (by decide)
  have h2 : hasSuffixCL (k.data ++ [':', 'c', 'r', 'e', 'a', 't', 'e']) [':', 'r', 'w']
      = false :=
    (hasSuffixCL_append_short k.data _ _ (by decide)).trans (by decide)
  rw [h1, h2]
  simp only [Bool.false_eq_true, if_false]
  rw [hasSuffixCL_append k.data [':', 'c', 'r', 'e', 'a', 't', 'e'], if_pos rfl]
  have ht : (k.data ++ [':', 'c', 'r', 'e', 'a', 't', 'e']).take
      ((k.data ++ [':', 'c', 'r', 'e', 'a', 't', 'e']).length - 7) = k.data := by
    rw [List.length_append,
      show ([':', 'c', 'r', 'e', 'a', 't', 'e'] : List Char).length = 7 from rfl,
      Nat.add_sub_cancel, List.take_left]
  rw [ht]

/-- No `:ro`/`:rw`/`:create` suffix on the key itself. -/
def fsNoModeSuffix (k : String) : Bool :=
  !hasSuffixCL k.data [':', 'r', 'o'] && !hasSuffixCL k.data [':', 'r', 'w'] &&
  !hasSuffixCL k.data [':', 'c', 'r', 'e', 'a', 't', 'e']

theorem parse_flags_plain (k : String) (h : fsNoModeSuffix k = true) :
    parse_filesystem_flags k = (k, 2) := by
  unfold fsNoModeSuffix at h
  simp only [Bool.and_eq_true, Bool.not_eq_true'] at h
  unfold parse_filesystem_flags
  rw [h.1.1, h.1.2, h.2]
  rfl

/-- A filesystem entry that serializes losslessly: not denied, a valid
location, no leading `'!'`, and (for read-write) no mode suffix on the
key. -/
def fsEntryOk (kv : String × Nat) : Bool :=
  !startsBang kv.1 && fsLocationOk kv.1 &&
  (decide (kv.2 = 1) || (decide (kv.2 = 2) && fsNoModeSuffix kv.1) || decide (kv.2 = 3))

theorem fsLocationOk_data_ne_nil (k : String) (h : fsLocationOk k = true) :
    k.data ≠ [] := by
  intro hd
  obtain ⟨d⟩ := k
  have hd' : d = [] := hd
  subst hd'
  exact absurd h (by decide)

/-- The bundled per-entry round-trip for filesystems. -/
theorem fsEmit_roundtrip (kv : String × Nat) (h : fsEntryOk kv = true) :
    ∃ e, fsEmit kv = some e ∧ parse_negated e = (false, e) ∧
      flatpak_context_verify_filesystem e = true ∧ parse_filesystem_flags e = kv := by
  obtain ⟨k, m⟩ := kv
  unfold fsEntryOk at h
  simp only [Bool.and_eq_true, Bool.or_eq_true, Bool.not_eq_true',
    decide_eq_true_eq] at h
  obtain ⟨⟨hb, hloc⟩, hm⟩ := h
  have hkne : k.data ≠ [] := fsLocationOk_data_ne_nil k hloc
  rcases hm with (hm | ⟨hm, hsuf⟩) | hm
  · subst hm
    refine ⟨⟨k.data ++ [':', 'r', 'o']⟩, by simp [fsEmit], ?_, ?_, parse_flags_ro k⟩
    · exact parse_negated_of_not_bang _ (startsBang_mk_append k _ hb hkne)
    · unfold flatpak_context_verify_filesystem
      rw [parse_flags_ro k]
      exact hloc
  · subst hm
    refine ⟨k, by simp [fsEmit], parse_negated_of_not_bang _ hb, ?_,
      parse_flags_plain k hsuf⟩
    unfold flatpak_context_verify_filesystem
    rw [parse_flags_plain k hsuf]
    exact hloc
  · subst hm
    refine ⟨⟨k.data ++ [':', 'c', 'r', 'e', 'a', 't', 'e']⟩, by simp [fsEmit], ?_, ?_,
      parse_flags_create k⟩
    · exact parse_negated_of_not_bang _ (startsBang_mk_append k _ hb hkne)
    · unfold flatpak_context_verify_filesystem
      rw [parse_flags_create k]
      exact hloc

theorem parseFsList_roundtrip (fss : List (String × Nat)) :
    ∀ acc, nodupKeys fss → (∀ kv ∈ fss, fsEntryOk kv = true) →
      (∀ k ∈ keysOf fss, k ∉ keysOf acc) →
      parseFsList (fss.filterMap fsEmit) acc = some (acc ++ fss) := by
  induction fss with
  | nil => intro acc _ _ _; simp [parseFsList]
  | cons kv rest ih =>
    intro acc hnd hok hdis
    obtain ⟨e, hemit, hneg, hver, hparse⟩ := fsEmit_roundtrip kv (hok kv (by simp))
    rw [List.filterMap_cons, hemit]
    unfold parseFsList
    simp only [hneg, hver, if_true, hparse, Bool.false_eq_true, if_false]
    have hknotacc : kv.1 ∉ keysOf acc := hdis kv.1 (by
      obtain ⟨k, m⟩ := kv
      simp [keysOf])
    have hins : insertKV acc kv.1 kv.2 = acc ++ [kv] := by
      rw [insertKV_of_not_mem acc kv.1 kv.2 hknotacc]
    rw [hins]
    have hnd2 : (kv.1 :: keysOf rest).Nodup := by
      obtain ⟨k, m⟩ := kv
      exact hnd
    rw [ih (acc ++ [kv]) (List.nodup_cons.mp hnd2).2 (fun x hx => hok x (by simp [hx]))
      (fun a ha => by
        rw [keysOf_append]
        simp only [List.mem_append]
        push_neg
        constructor
        · exact hdis a (by obtain ⟨k, m⟩ := kv; rw [keysOf_cons]; simp [ha])
        · obtain ⟨k, m⟩ := kv
          simp only [keysOf_cons, keysOf_nil, List.mem_singleton]
          intro he
          exact absurd (he ▸ ha) (List.nodup_cons.mp hnd2).1)]
    simp

theorem loadFsField_roundtrip (fss : List (String × Nat)) (hnd : nodupKeys fss)
    (hok : ∀ kv ∈ fss, fsEntryOk kv = true) :
    loadFsField (saveFilesystemsField fss) [] = some fss := by
  cases fss with
  | nil => rfl
  | cons kv rest =>
    unfold saveFilesystemsField loadFsField
    rw [if_pos (by simp)]
    show parseFsList (List.filterMap fsEmit (kv :: rest)) [] = some (kv :: rest)
    rw [parseFsList_roundtrip (kv :: rest) [] hnd hok (by simp [keysOf])]
    simp

theorem loadPersistentField_roundtrip (l : List String) (h : l.Nodup) :
    loadPersistentField (savePersistentField l) [] = l := by
  cases l with
  | nil => rfl
  | cons a rest =>
    unfold savePersistentField loadPersistentField
    rw [if_pos (by simp)]
    exact insertAllSet_nil _ h

theorem parsePolicyList_roundtrip (validName : String → Bool)
    (pol : List (String × Nat)) :
    ∀ acc, nodupKeys pol → (∀ kv ∈ pol, kv.2 = 1 ∨ kv.2 = 3 ∨ kv.2 = 4) →
      (∀ kv ∈ pol, validName kv.1 = true) →
      (∀ k ∈ keysOf pol, k ∉ keysOf acc) →
      parsePolicyList validName (savePolicies pol) acc = some (acc ++ pol) := by
  induction pol with
  | nil => intro acc _ _ _ _; simp [savePolicies, parsePolicyList]
  | cons kv rest ih =>
    intro acc hnd hp hv hdis
    obtain ⟨k, p⟩ := kv
    have hp1 : p = 1 ∨ p = 3 ∨ p = 4 := hp (k, p) (by simp)
    have hpos : p > 0 := by rcases hp1 with rfl | rfl | rfl <;> decide
    have hsp : savePolicies ((k, p) :: rest) =
        (k, flatpak_policy_to_string p) :: savePolicies rest := by
      unfold savePolicies
      rw [List.filterMap_cons, if_pos hpos]
    rw [hsp]
    unfold parsePolicyList
    rw [hv (k, p) (by simp), if_pos rfl]
    rw [show flatpak_policy_from_string (flatpak_policy_to_string p) = some p from by
      rcases hp1 with rfl | rfl | rfl <;> rfl]
    show parsePolicyList validName (savePolicies rest) (insertKV acc k p) =
      some (acc ++ (k, p) :: rest)
    have hknotacc : k ∉ keysOf acc := hdis k (by simp [keysOf])
    rw [insertKV_of_not_mem acc k p hknotacc]
    have hnd2 : (k :: keysOf rest).Nodup := hnd
    rw [ih (acc ++ [(k, p)]) (List.nodup_cons.mp hnd2).2
      (fun x hx => hp x (by simp [hx])) (fun x hx => hv x (by simp [hx]))
      (fun a ha => by
        rw [keysOf_append]
        simp only [List.mem_append]
        push_neg
        refine ⟨hdis a (by rw [keysOf_cons]; simp [ha]), ?_⟩
        simp only [keysOf_cons, keysOf_nil, List.mem_singleton]
        intro he
        exact absurd (he ▸ ha) (List.nodup_cons.mp hnd2).1)]
    simp


/-- Round trip of the `shared` bitset list through save and load, for every
enabled/valid pair of the two-name table with enabled ⊆ valid. -/
theorem sharesBitsetRT : ∀ b < 4, ∀ v < 4, b &&& v = b →
    loadBitsetField (saveBitsetField b v sharesNames) sharesNames (0, 0) = some (b, v) := by
  decide

/-- Round trip of the `sockets` bitset list (five names). -/
theorem socketsBitsetRT : ∀ b < 32, ∀ v < 32, b &&& v = b →
    loadBitsetField (saveBitsetField b v socketsNames) socketsNames (0, 0) = some (b, v) := by
  decide

/-- Round trip of the `devices` bitset list (three names). -/
theorem devicesBitsetRT : ∀ b < 8, ∀ v < 8, b &&& v = b →
    loadBitsetField (saveBitsetField b v devicesNames) devicesNames (0, 0) = some (b, v) := by
  decide

/-- Round trip of the `features` bitset list in the shape the save actually
produces: the local `features_valid` is `context->features`, so the saved
pair is `(features, features)`. -/
theorem featuresBitsetRT : ∀ b < 4,
    loadBitsetField (saveBitsetField b b featuresNames) featuresNames (0, 0) = some (b, b) := by
  decide

/-- `g_strsplit (k, ".", 2)` inverts `"%s.%s"`: a successful split
reassembles to the original key. -/
theorem splitDotAux_join (d : List Char) : ∀ a b, splitDotAux d = some (a, b) →
    a ++ '.' :: b = d := by
  induction d with
  | nil => intro a b h; exact absurd h (by simp [splitDotAux])
  | cons c rest ih =>
    intro a b h
    unfold splitDotAux at h
    by_cases hc : c = '.'
    · rw [if_pos hc] at h
      injection h with h2
      injection h2 with h3 h4
      subst h3
      subst h4
      subst hc
      rfl
    · rw [if_neg hc] at h
      cases hs : splitDotAux rest with
      | none => rw [hs] at h; exact absurd h (by simp)
      | some p =>
        rw [hs] at h
        obtain ⟨p1, p2⟩ := p
        rw [show Option.map (fun p => (c :: p.1, p.2)) (some (p1, p2))
            = some (c :: p1, p2) from rfl] at h
        injection h with h2
        injection h2 with h3 h4
        subst h3
        subst h4
        rw [List.cons_append, ih p1 p2 hs]

/-- Applying pairwise-distinct (after `'!'`-stripping) values onto a list
disjoint from them just appends them. -/
theorem applyAllValues_of_distinct (vs : List String) :
    ∀ a, (∀ x ∈ a, ∀ y ∈ vs, stripBang x ≠ stripBang y) →
      vs.Pairwise (fun x y => stripBang x ≠ stripBang y) →
      applyAllValues a vs = a ++ vs := by
  induction vs with
  | nil => intro a _ _; simp [applyAllValues]
  | cons v rest ih =>
    intro a hdis hpw
    show applyAllValues (applyPolicyValue a v) rest = a ++ v :: rest
    have hfa : applyPolicyValue a v = a ++ [v] := by
      rw [applyPolicyValue_eq_filter]
      congr 1
      rw [List.filter_eq_self.mpr]
      intro x hx
      unfold policyKeeps
      simp [hdis x hx v (by simp)]
    rw [hfa]
    rw [ih (a ++ [v]) ?_ (List.pairwise_cons.mp hpw).2]
    · simp
    · intro x hx y hy
      rcases List.mem_append.mp hx with hx | hx
      · exact hdis x hx y (by simp [hy])
      · rw [List.mem_singleton] at hx
        subst hx
        exact (List.pairwise_cons.mp hpw).1 y hy

/-- Round trip of the generic-policy groups under `flatten = false`:
with well-formed keys and per-key values pairwise distinct after
stripping, loading the saved groups appends the table. -/
theorem loadPolicyGroups_roundtrip (gp : List (String × List String)) :
    ∀ acc, nodupKeys gp →
      (∀ kv ∈ gp, (splitDotAux kv.1.data).isSome) →
      (∀ kv ∈ gp, kv.2 ≠ []) →
      (∀ kv ∈ gp, kv.2.Pairwise (fun x y => stripBang x ≠ stripBang y)) →
      (∀ k ∈ keysOf gp, k ∉ keysOf acc) →
      loadPolicyGroups (saveGenericPolicy false gp) acc = acc ++ gp := by
  induction gp with
  | nil => intro acc _ _ _ _ _; simp [saveGenericPolicy, loadPolicyGroups]
  | cons kv rest ih =>
    intro acc hnd hsplit hne hpw hdis
    obtain ⟨k, vs⟩ := kv
    obtain ⟨p, hp⟩ := Option.isSome_iff_exists.mp (hsplit (k, vs) (by simp))
    obtain ⟨p1, p2⟩ := p
    have hvs : vs ≠ [] := hne (k, vs) (by simp)
    have hfil : vs.filter (fun v => !false || !(startsBang v)) = vs := by
      simp
    have hemit : sgpEmit false (k, vs) = some ((⟨p1⟩, ⟨p2⟩), vs) := by
      unfold sgpEmit
      simp only [hp, hfil]
      rw [if_pos (List.length_pos.mpr hvs)]
    unfold saveGenericPolicy
    rw [List.filterMap_cons, hemit]
    unfold loadPolicyGroups
    have hjoin : joinDot ⟨p1⟩ ⟨p2⟩ = k := by
      unfold joinDot
      rw [data_mk, data_mk, splitDotAux_join k.data p1 p2 hp]
    rw [hjoin]
    have hknotacc : k ∉ keysOf acc := hdis k (by simp [keysOf])
    have hfold : vs.foldl (fun a v => applyGenericPolicyList a k v) acc
        = insertKV acc k vs := by
      show applyGPValues acc k vs = insertKV acc k vs
      rw [applyGPValues_eq_insertKV vs acc k hvs,
        lookupKV_eq_none_of_not_mem acc k hknotacc]
      simp only [Option.getD_none]
      rw [applyAllValues_of_distinct vs []
        (by intro x hx; exact absurd hx (List.not_mem_nil x))
        (hpw (k, vs) (by simp))]
      rfl
    rw [hfold, insertKV_of_not_mem acc k vs hknotacc]
    rw [show List.filterMap (sgpEmit false) rest = saveGenericPolicy false rest from rfl]
    have hnd2 : (k :: keysOf rest).Nodup := hnd
    rw [ih (acc ++ [(k, vs)]) (List.nodup_cons.mp hnd2).2
      (fun x hx => hsplit x (by simp [hx])) (fun x hx => hne x (by simp [hx]))
      (fun x hx => hpw x (by simp [hx]))
      (fun a ha => by
        rw [keysOf_append]
        simp only [List.mem_append]
        push_neg
        refine ⟨hdis a (by rw [keysOf_cons]; simp [ha]), ?_⟩
        simp only [keysOf_cons, keysOf_nil, List.mem_singleton]
        intro he
        exact absurd (he ▸ ha) (List.nodup_cons.mp hnd2).1)]
    simp


/-- A context whose only content is a denied (`--nofilesystem`) entry:
`save_metadata` writes nothing for it (`g_hash_table_lookup` gives `NULL`
and only non-`NULL` values are serialized), so the round trip loses it. -/
def deniedFsSample : FlatpakContext :=
  { flatpak_context_new with filesystems := [("home", 0)] }

/-- A context exercising every serialized field, within the fragment that
round-trips. -/
def roundtripSample : FlatpakContext :=
  { shares := 1
    shares_valid := 3
    sockets := 2
    sockets_valid := 3
    devices := 1
    devices_valid := 1
    features := 1
    features_valid := 1
    env_vars := [("V", "1")]
    persistent := ["data"]
    filesystems := [("home", 1), ("/media", 3)]
    session_bus_policy := [("org.a.b", 3)]
    system_bus_policy := [("org.c.d", 4)]
    generic_policy := [("org.gnome.SessionManager", ["a", "!b"])] }

/-- C1 (amended): `parse(serialize(C, flatten=false)) = C` does NOT hold
for every context — denied (`NULL`-valued) filesystem entries are never
serialized, the saved `features` list uses `context->features` as its
valid mask, a `filtered` bus policy is written as `"none"`, and the
policy tables dedupe — but it does hold on the well-formed fragment:
bitsets within their tables with `bits ⊆ valid` and
`features_valid = features`, no denied filesystem entries, well-formed
filesystem expressions, bus policies among see/talk/own with valid
names, and generic-policy keys containing `'.'` with nonempty value
lists pairwise distinct after `'!'`-stripping. -/
theorem context_roundtrip_amended (validName : String → Bool) (c : FlatpakContext)
    (hsh : c.shares &&& c.shares_valid = c.shares) (hshv : c.shares_valid < 4)
    (hso : c.sockets &&& c.sockets_valid = c.sockets) (hsov : c.sockets_valid < 32)
    (hde : c.devices &&& c.devices_valid = c.devices) (hdev : c.devices_valid < 8)
    (hfe : c.features_valid = c.features) (hfev : c.features < 4)
    (henv : nodupKeys c.env_vars)
    (hpers : c.persistent.Nodup)
    (hfsnd : nodupKeys c.filesystems)
    (hfsok : ∀ kv ∈ c.filesystems, fsEntryOk kv = true)
    (hsessnd : nodupKeys c.session_bus_policy)
    (hsessp : ∀ kv ∈ c.session_bus_policy, kv.2 = 1 ∨ kv.2 = 3 ∨ kv.2 = 4)
    (hsessv : ∀ kv ∈ c.session_bus_policy, validName kv.1 = true)
    (hsysnd : nodupKeys c.system_bus_policy)
    (hsysp : ∀ kv ∈ c.system_bus_policy, kv.2 = 1 ∨ kv.2 = 3 ∨ kv.2 = 4)
    (hsysv : ∀ kv ∈ c.system_bus_policy, validName kv.1 = true)
    (hgpnd : nodupKeys c.generic_policy)
    (hgpsplit : ∀ kv ∈ c.generic_policy, (splitDotAux kv.1.data).isSome)
    (hgpne : ∀ kv ∈ c.generic_policy, kv.2 ≠ [])
    (hgppw : ∀ kv ∈ c.generic_policy,
      kv.2.Pairwise (fun x y => stripBang x ≠ stripBang y)) :
    flatpak_context_load_metadata validName flatpak_context_new
      (flatpak_context_save_metadata c false) = some c := by
  have hshb : c.shares < 4 := lt_of_le_of_lt (hsh ▸ Nat.and_le_right) hshv
  have hsob : c.sockets < 32 := lt_of_le_of_lt (hso ▸ Nat.and_le_right) hsov
  have hdeb : c.devices < 8 := lt_of_le_of_lt (hde ▸ Nat.and_le_right) hdev
  have h1 := sharesBitsetRT c.shares hshb c.shares_valid hshv hsh
  have h2 := socketsBitsetRT c.sockets hsob c.sockets_valid hsov hso
  have h3 := devicesBitsetRT c.devices hdeb c.devices_valid hdev hde
  have h4 := featuresBitsetRT c.features hfev
  have h5 := loadFsField_roundtrip c.filesystems hfsnd hfsok
  have h6 := loadPersistentField_roundtrip c.persistent hpers
  have h7 := parsePolicyList_roundtrip validName c.session_bus_policy []
    hsessnd hsessp hsessv (by intro k _ hk; simp [keysOf] at hk)
  have h8 := parsePolicyList_roundtrip validName c.system_bus_policy []
    hsysnd hsysp hsysv (by intro k _ hk; simp [keysOf] at hk)
  have h9 : insertAll ([] : List (String × String)) c.env_vars = c.env_vars :=
    insertAll_nil c.env_vars henv
  have h10 := loadPolicyGroups_roundtrip c.generic_policy [] hgpnd hgpsplit hgpne
    hgppw (by intro k _ hk; simp [keysOf] at hk)
  have hsave : flatpak_context_save_metadata c false =
      { shared := saveBitsetField c.shares c.shares_valid sharesNames
        sockets := saveBitsetField c.sockets c.sockets_valid socketsNames
        devices := saveBitsetField c.devices c.devices_valid devicesNames
        features := saveBitsetField c.features c.features featuresNames
        filesystems := saveFilesystemsField c.filesystems
        persistent := savePersistentField c.persistent
        session_bus_policy := savePolicies c.session_bus_policy
        system_bus_policy := savePolicies c.system_bus_policy
        environment := c.env_vars
        policy := saveGenericPolicy false c.generic_policy } := rfl
  rw [hsave]
  unfold flatpak_context_load_metadata
  simp only [flatpak_context_new, h1, h2, h3, h4, h5, h6, h7, h8, h9, h10,
    List.nil_append, Option.bind_eq_bind, Option.some_bind]
  nth_rewrite 2 [← hfe]
  rfl

/-- C1: the literal claim fails — a denied filesystem entry does not
survive the round trip. -/
theorem context_roundtrip_counterexample :
    flatpak_context_load_metadata (fun _ => true) flatpak_context_new
      (flatpak_context_save_metadata deniedFsSample false) ≠ some deniedFsSample := by
  decide

theorem context_roundtrip_amended_witness :
    flatpak_context_load_metadata (fun _ => true) flatpak_context_new
      (flatpak_context_save_metadata roundtripSample false) = some roundtripSample :=
  context_roundtrip_amended (fun _ => true) roundtripSample (by decide) (by decide)
    (by decide) (by decide) (by decide) (by decide) (by decide) (by decide)
    (by decide) (by decide) (by decide) (by decide) (by decide) (by decide)
    (by decide) (by decide) (by decide) (by decide) (by decide) (by decide)
    (by decide) (by decide)


/-! ## Flatten (C4): the spec's "no entry starts with `'!'`" property and
the restriction of a context to its enabled bits. -/

/-- The spec's property of a flattened manifest: no list entry and no
generic-policy value starts with `'!'`. -/
def flattenNoBang (m : Metadata) : Prop :=
  (∀ e ∈ m.shared.getD [], startsBang e = false) ∧
  (∀ e ∈ m.sockets.getD [], startsBang e = false) ∧
  (∀ e ∈ m.devices.getD [], startsBang e = false) ∧
  (∀ e ∈ m.features.getD [], startsBang e = false) ∧
  (∀ e ∈ m.filesystems.getD [], startsBang e = false) ∧
  (∀ e ∈ m.persistent.getD [], startsBang e = false) ∧
  (∀ kv ∈ m.policy, ∀ v ∈ kv.2, startsBang v = false)

/-- With `enabled = valid` every emitted token is a plain table name. -/
theorem bitmaskToStringAux_self_all (e : Nat) (names : List String) :
    ∀ (i : Nat), (∀ n ∈ names, startsBang n = false) →
      ∀ s ∈ bitmaskToStringAux e e names i, startsBang s = false := by
  induction names with
  | nil => intro i _ s hs; exact absurd hs (by simp [bitmaskToStringAux])
  | cons n rest ih =>
    intro i hn s hs
    unfold bitmaskToStringAux at hs
    rw [List.mem_append] at hs
    rcases hs with hs | hs
    · by_cases hb : e &&& (1 <<< i) ≠ 0
      · rw [if_pos hb, if_pos hb] at hs
        rw [List.mem_singleton] at hs
        rw [hs]
        exact hn n (by simp)
      · rw [if_neg hb] at hs
        exact absurd hs (List.not_mem_nil s)
    · exact ih (i + 1) (fun m hm => hn m (by simp [hm])) s hs

theorem saveBitsetField_self_all (e : Nat) (names : List String)
    (hn : ∀ n ∈ names, startsBang n = false) :
    ∀ s ∈ (saveBitsetField e e names).getD [], startsBang s = false := by
  intro s hs
  have heq : saveBitsetField e e names =
      if (flatpak_context_bitmask_to_string e e names).isEmpty then none
      else some (flatpak_context_bitmask_to_string e e names) := rfl
  rw [heq] at hs
  by_cases hl : (flatpak_context_bitmask_to_string e e names).isEmpty
  · rw [if_pos hl] at hs
    exact absurd hs (List.not_mem_nil s)
  · rw [if_neg hl] at hs
    rw [Option.getD_some] at hs
    exact bitmaskToStringAux_self_all e names 0 hn s hs

/-- Appending a suffix that starts with `':'` cannot create a leading `'!'`. -/
theorem startsBang_mk_append_colon (k : String) (suf : List Char)
    (hk : startsBang k = false) :
    startsBang ⟨k.data ++ ':' :: suf⟩ = false := by
  unfold startsBang at hk ⊢
  cases hd : k.data with
  | nil =>
    rw [data_mk, List.nil_append]
    split
    · next x heq =>
      injection heq with h1 _
      exact absurd h1 (by decide)
    · rfl
  | cons c rest =>
    rw [hd] at hk
    rw [data_mk, List.cons_append]
    split
    · next x heq =>
      injection heq with h1 _
      subst h1
      exact Bool.noConfusion hk
    · rfl

/-- A serialized filesystem entry built from a `'!'`-free key is `'!'`-free. -/
theorem fsEmit_no_bang (kv : String × Nat) (hk : startsBang kv.1 = false) :
    ∀ s, fsEmit kv = some s → startsBang s = false := by
  obtain ⟨k, m⟩ := kv
  intro s hs
  unfold fsEmit at hs
  by_cases h1 : m = 1
  · rw [if_pos h1] at hs
    injection hs with hs
    subst hs
    exact startsBang_mk_append_colon k _ hk
  · rw [if_neg h1] at hs
    by_cases h3 : m = 3
    · rw [if_pos h3] at hs
      injection hs with hs
      subst hs
      exact startsBang_mk_append_colon k _ hk
    · rw [if_neg h3] at hs
      by_cases h0 : m ≠ 0
      · rw [if_pos h0] at hs
        injection hs with hs
        subst hs
        exact hk
      · rw [if_neg h0] at hs
        exact Option.noConfusion hs

/-- With `flatten` the values written for a policy group are exactly the
`'!'`-free ones. -/
theorem sgpEmit_true_no_bang (kv : String × List String) :
    ∀ e, sgpEmit true kv = some e → ∀ v ∈ e.2, startsBang v = false := by
  intro e he v hv
  unfold sgpEmit at he
  cases hp : splitDotAux kv.1.data with
  | none => rw [hp] at he; exact Option.noConfusion he
  | some p =>
    rw [hp] at he
    have he2 : (if (kv.2.filter (fun v => !true || !(startsBang v))).length > 0 then
        some ((⟨p.1⟩, ⟨p.2⟩), kv.2.filter (fun v => !true || !(startsBang v)))
        else none) = some e := he
    by_cases hl : (kv.2.filter (fun v => !true || !(startsBang v))).length > 0
    · rw [if_pos hl] at he2
      injection he2 with he2
      subst he2
      have hm := List.mem_filter.mp hv
      have := hm.2
      simp only [Bool.not_true, Bool.false_or, Bool.not_eq_true'] at this
      exact this
    · rw [if_neg hl] at he2
      exact Option.noConfusion he2


/-- A denied entry has a `NULL` value and is skipped by the serializer. -/
theorem fsEmit_denied (kv : String × Nat) (h : kv.2 = 0) : fsEmit kv = none := by
  obtain ⟨k, m⟩ := kv
  have hm : m = 0 := h
  subst hm
  rfl

/-- Filesystem round trip in presence of denied entries: only the
non-denied ones survive. -/
theorem parseFsList_roundtrip_filter (fss : List (String × Nat)) :
    ∀ acc, nodupKeys fss → (∀ kv ∈ fss, kv.2 ≠ 0 → fsEntryOk kv = true) →
      (∀ k ∈ keysOf fss, k ∉ keysOf acc) →
      parseFsList (fss.filterMap fsEmit) acc
        = some (acc ++ fss.filter (fun kv => decide (kv.2 ≠ 0))) := by
  induction fss with
  | nil => intro acc _ _ _; simp [parseFsList]
  | cons kv rest ih =>
    intro acc hnd hok hdis
    have hnd2 : (kv.1 :: keysOf rest).Nodup := by
      obtain ⟨k, m⟩ := kv
      exact hnd
    by_cases h0 : kv.2 = 0
    · rw [List.filterMap_cons, fsEmit_denied kv h0]
      rw [List.filter_cons, if_neg (by simp [h0])]
      exact ih acc (List.nodup_cons.mp hnd2).2 (fun x hx => hok x (by simp [hx]))
        (fun a ha => hdis a (by obtain ⟨k, m⟩ := kv; rw [keysOf_cons]; simp [ha]))
    · obtain ⟨e, hemit, hneg, hver, hparse⟩ := fsEmit_roundtrip kv (hok kv (by simp) h0)
      rw [List.filterMap_cons, hemit]
      unfold parseFsList
      simp only [hneg, hver, if_true, hparse, Bool.false_eq_true, if_false]
      have hknotacc : kv.1 ∉ keysOf acc := hdis kv.1 (by
        obtain ⟨k, m⟩ := kv
        simp [keysOf])
      have hins : insertKV acc kv.1 kv.2 = acc ++ [kv] := by
        rw [insertKV_of_not_mem acc kv.1 kv.2 hknotacc]
      rw [hins]
      rw [List.filter_cons, if_pos (by simp [h0])]
      rw [ih (acc ++ [kv]) (List.nodup_cons.mp hnd2).2 (fun x hx => hok x (by simp [hx]))
        (fun a ha => by
          rw [keysOf_append]
          simp only [List.mem_append]
          push_neg
          constructor
          · exact hdis a (by obtain ⟨k, m⟩ := kv; rw [keysOf_cons]; simp [ha])
          · obtain ⟨k, m⟩ := kv
            simp only [keysOf_cons, keysOf_nil, List.mem_singleton]
            intro he
            exact absurd (he ▸ ha) (List.nodup_cons.mp hnd2).1)]
      simp

theorem loadFsField_roundtrip_filter (fss : List (String × Nat)) (hnd : nodupKeys fss)
    (hok : ∀ kv ∈ fss, kv.2 ≠ 0 → fsEntryOk kv = true) :
    loadFsField (saveFilesystemsField fss) []
      = some (fss.filter (fun kv => decide (kv.2 ≠ 0))) := by
  cases fss with
  | nil => rfl
  | cons kv rest =>
    unfold saveFilesystemsField loadFsField
    rw [if_pos (by simp)]
    show parseFsList (List.filterMap fsEmit (kv :: rest)) []
      = some ((kv :: rest).filter (fun kv => decide (kv.2 ≠ 0)))
    rw [parseFsList_roundtrip_filter (kv :: rest) [] hnd hok (by simp [keysOf])]
    simp

/-- Bus-policy round trip in presence of `none`-policy entries: they are
skipped by the serializer and absent from the reloaded table. -/
theorem parsePolicyList_roundtrip_filter (validName : String → Bool)
    (pol : List (String × Nat)) :
    ∀ acc, nodupKeys pol →
      (∀ kv ∈ pol, kv.2 = 0 ∨ kv.2 = 1 ∨ kv.2 = 3 ∨ kv.2 = 4) →
      (∀ kv ∈ pol, validName kv.1 = true) →
      (∀ k ∈ keysOf pol, k ∉ keysOf acc) →
      parsePolicyList validName (savePolicies pol) acc
        = some (acc ++ pol.filter (fun kv => decide (kv.2 ≠ 0))) := by
  induction pol with
  | nil => intro acc _ _ _ _; simp [savePolicies, parsePolicyList]
  | cons kv rest ih =>
    intro acc hnd hp hv hdis
    obtain ⟨k, p⟩ := kv
    have hnd2 : (k :: keysOf rest).Nodup := hnd
    by_cases h0 : p = 0
    · subst h0
      have hsp : savePolicies ((k, 0) :: rest) = savePolicies rest := rfl
      rw [hsp, List.filter_cons, if_neg (by simp)]
      exact ih acc (List.nodup_cons.mp hnd2).2 (fun x hx => hp x (by simp [hx]))
        (fun x hx => hv x (by simp [hx]))
        (fun a ha => hdis a (by rw [keysOf_cons]; simp [ha]))
    · have hp1 : p = 1 ∨ p = 3 ∨ p = 4 := by
        rcases hp (k, p) (by simp) with h | h
        · exact absurd h h0
        · exact h
      have hpos : p > 0 := by rcases hp1 with rfl | rfl | rfl <;> decide
      have hsp : savePolicies ((k, p) :: rest) =
          (k, flatpak_policy_to_string p) :: savePolicies rest := by
        unfold savePolicies
        rw [List.filterMap_cons, if_pos hpos]
      rw [hsp]
      unfold parsePolicyList
      rw [hv (k, p) (by simp), if_pos rfl]
      rw [show flatpak_policy_from_string (flatpak_policy_to_string p) = some p from by
        rcases hp1 with rfl | rfl | rfl <;> rfl]
      show parsePolicyList validName (savePolicies rest) (insertKV acc k p)
        = some (acc ++ ((k, p) :: rest).filter (fun kv => decide (kv.2 ≠ 0)))
      have hknotacc : k ∉ keysOf acc := hdis k (by simp [keysOf])
      rw [insertKV_of_not_mem acc k p hknotacc]
      rw [List.filter_cons, if_pos (by simp [h0])]
      rw [ih (acc ++ [(k, p)]) (List.nodup_cons.mp hnd2).2
        (fun x hx => hp x (by simp [hx])) (fun x hx => hv x (by simp [hx]))
        (fun a ha => by
          rw [keysOf_append]
          simp only [List.mem_append]
          push_neg
          refine ⟨hdis a (by rw [keysOf_cons]; simp [ha]), ?_⟩
          simp only [keysOf_cons, keysOf_nil, List.mem_singleton]
          intro he
          exact absurd (he ▸ ha) (List.nodup_cons.mp hnd2).1)]
      simp

/-- One generic-policy entry restricted to its `'!'`-free values (the
spec's "negated policy values are absent"); an entry with no remaining
values disappears. -/
def rgpEmit (kv : String × List String) : Option (String × List String) :=
  if (kv.2.filter (fun v => !(startsBang v))).length > 0 then
    some (kv.1, kv.2.filter (fun v => !(startsBang v)))
  else none

def restrictGP (gp : List (String × List String)) : List (String × List String) :=
  gp.filterMap rgpEmit

/-- Round trip of the generic-policy groups under `flatten = true`. -/
theorem loadPolicyGroups_roundtrip_flatten (gp : List (String × List String)) :
    ∀ acc, nodupKeys gp →
      (∀ kv ∈ gp, (splitDotAux kv.1.data).isSome) →
      (∀ kv ∈ gp, kv.2.Pairwise (fun x y => stripBang x ≠ stripBang y)) →
      (∀ k ∈ keysOf gp, k ∉ keysOf acc) →
      loadPolicyGroups (saveGenericPolicy true gp) acc = acc ++ restrictGP gp := by
  induction gp with
  | nil => intro acc _ _ _ _; simp [saveGenericPolicy, loadPolicyGroups, restrictGP]
  | cons kv rest ih =>
    intro acc hnd hsplit hpw hdis
    obtain ⟨k, vs⟩ := kv
    obtain ⟨p, hp⟩ := Option.isSome_iff_exists.mp (hsplit (k, vs) (by simp))
    obtain ⟨p1, p2⟩ := p
    have hnd2 : (k :: keysOf rest).Nodup := hnd
    have hfil : vs.filter (fun v => !true || !(startsBang v))
        = vs.filter (fun v => !(startsBang v)) := by simp
    by_cases hl : (vs.filter (fun v => !(startsBang v))).length > 0
    · have hremit : rgpEmit (k, vs) = some (k, vs.filter (fun v => !(startsBang v))) := by
        unfold rgpEmit
        rw [if_pos hl]
      have hemit : sgpEmit true (k, vs)
          = some ((⟨p1⟩, ⟨p2⟩), vs.filter (fun v => !(startsBang v))) := by
        unfold sgpEmit
        simp only [hp, hfil]
        rw [if_pos hl]
      unfold saveGenericPolicy
      rw [List.filterMap_cons, hemit]
      unfold loadPolicyGroups
      have hjoin : joinDot ⟨p1⟩ ⟨p2⟩ = k := by
        unfold joinDot
        rw [data_mk, data_mk, splitDotAux_join k.data p1 p2 hp]
      rw [hjoin]
      have hknotacc : k ∉ keysOf acc := hdis k (by simp [keysOf])
      have hfvs_ne : vs.filter (fun v => !(startsBang v)) ≠ [] := by
        intro hc
        rw [hc] at hl
        exact absurd hl (by simp)
      have hfold : (vs.filter (fun v => !(startsBang v))).foldl
          (fun a v => applyGenericPolicyList a k v) acc
          = insertKV acc k (vs.filter (fun v => !(startsBang v))) := by
        show applyGPValues acc k (vs.filter (fun v => !(startsBang v)))
          = insertKV acc k (vs.filter (fun v => !(startsBang v)))
        rw [applyGPValues_eq_insertKV _ acc k hfvs_ne,
          lookupKV_eq_none_of_not_mem acc k hknotacc]
        simp only [Option.getD_none]
        rw [applyAllValues_of_distinct _ []
          (by intro x hx; exact absurd hx (List.not_mem_nil x))
          ((hpw (k, vs) (by simp)).filter _)]
        rfl
      rw [hfold, insertKV_of_not_mem acc k _ hknotacc]
      rw [show List.filterMap (sgpEmit true) rest = saveGenericPolicy true rest from rfl]
      rw [ih (acc ++ [(k, vs.filter (fun v => !(startsBang v)))])
        (List.nodup_cons.mp hnd2).2
        (fun x hx => hsplit x (by simp [hx])) (fun x hx => hpw x (by simp [hx]))
        (fun a ha => by
          rw [keysOf_append]
          simp only [List.mem_append]
          push_neg
          refine ⟨hdis a (by rw [keysOf_cons]; simp [ha]), ?_⟩
          simp only [keysOf_cons, keysOf_nil, List.mem_singleton]
          intro he
          exact absurd (he ▸ ha) (List.nodup_cons.mp hnd2).1)]
      rw [show restrictGP ((k, vs) :: rest)
          = (k, vs.filter (fun v => !(startsBang v))) :: restrictGP rest from by
        unfold restrictGP
        rw [List.filterMap_cons, hremit]]
      simp
    · have hremit : rgpEmit (k, vs) = none := by
        unfold rgpEmit
        rw [if_neg hl]
      have hemit : sgpEmit true (k, vs) = none := by
        unfold sgpEmit
        simp only [hp, hfil]
        rw [if_neg hl]
      unfold saveGenericPolicy
      rw [List.filterMap_cons, hemit]
      rw [show List.filterMap (sgpEmit true) rest = saveGenericPolicy true rest from rfl]
      rw [show restrictGP ((k, vs) :: rest) = restrictGP rest from by
        unfold restrictGP
        rw [List.filterMap_cons, hremit]]
      exact ih acc (List.nodup_cons.mp hnd2).2 (fun x hx => hsplit x (by simp [hx]))
        (fun x hx => hpw x (by simp [hx]))
        (fun a ha => hdis a (by rw [keysOf_cons]; simp [ha]))


/-- The spec's "C restricted to its enabled bits": bitsets keep only
bits within their valid masks (which collapse onto them), denied
filesystem and `none`-policy entries disappear, and negated
generic-policy values are dropped (a key left with no values
disappears). -/
def restrictToEnabled (c : FlatpakContext) : FlatpakContext :=
  { shares := c.shares &&& c.shares_valid
    shares_valid := c.shares &&& c.shares_valid
    sockets := c.sockets &&& c.sockets_valid
    sockets_valid := c.sockets &&& c.sockets_valid
    devices := c.devices &&& c.devices_valid
    devices_valid := c.devices &&& c.devices_valid
    features := c.features &&& c.features_valid
    features_valid := c.features &&& c.features_valid
    env_vars := c.env_vars
    persistent := c.persistent
    filesystems := c.filesystems.filter (fun kv => decide (kv.2 ≠ 0))
    session_bus_policy := c.session_bus_policy.filter (fun kv => decide (kv.2 ≠ 0))
    system_bus_policy := c.system_bus_policy.filter (fun kv => decide (kv.2 ≠ 0))
    generic_policy := restrictGP c.generic_policy }

/-- A context exercising every flattened field, with a denied filesystem
entry, a `none` bus policy and negated generic-policy values that the
flatten drops. -/
def flattenSample : FlatpakContext :=
  { shares := 1
    shares_valid := 3
    sockets := 2
    sockets_valid := 2
    devices := 7
    devices_valid := 1
    features := 1
    features_valid := 1
    env_vars := [("V", "1")]
    persistent := ["data"]
    filesystems := [("home", 1), ("xdg-download", 0)]
    session_bus_policy := [("org.a.b", 0), ("org.c.d", 3)]
    system_bus_policy := [("org.e.f", 4)]
    generic_policy := [("org.gnome.SM", ["a", "!b"]), ("org.x.y", ["!z"])] }

/-- C4 (amended): flattening does NOT strip `'!'` from every list — the
`persistent` entries are written verbatim, so a context holding a
`'!'`-prefixed persistent path refutes the claim as stated — but on
contexts whose persistent entries and filesystem keys are `'!'`-free
(with the well-formedness of the round-trip fragment) the flattened
manifest has no `'!'`-prefixed entry or generic-policy value, and
re-parsing it into an empty context yields the context restricted to
its enabled bits: bitsets masked by their valid masks, denied
filesystems, `none` policies and negated generic-policy values absent. -/
theorem flatten_roundtrip_amended (validName : String → Bool) (c : FlatpakContext)
    (hshv : c.shares_valid < 4) (hsov : c.sockets_valid < 32)
    (hdev : c.devices_valid < 8)
    (hfe : c.features &&& c.features_valid = c.features) (hfev : c.features < 4)
    (henv : nodupKeys c.env_vars)
    (hpers : c.persistent.Nodup)
    (hpersnb : ∀ p ∈ c.persistent, startsBang p = false)
    (hfsnd : nodupKeys c.filesystems)
    (hfsnb : ∀ kv ∈ c.filesystems, startsBang kv.1 = false)
    (hfsok : ∀ kv ∈ c.filesystems, kv.2 ≠ 0 → fsEntryOk kv = true)
    (hsessnd : nodupKeys c.session_bus_policy)
    (hsessp : ∀ kv ∈ c.session_bus_policy, kv.2 = 0 ∨ kv.2 = 1 ∨ kv.2 = 3 ∨ kv.2 = 4)
    (hsessv : ∀ kv ∈ c.session_bus_policy, validName kv.1 = true)
    (hsysnd : nodupKeys c.system_bus_policy)
    (hsysp : ∀ kv ∈ c.system_bus_policy, kv.2 = 0 ∨ kv.2 = 1 ∨ kv.2 = 3 ∨ kv.2 = 4)
    (hsysv : ∀ kv ∈ c.system_bus_policy, validName kv.1 = true)
    (hgpnd : nodupKeys c.generic_policy)
    (hgpsplit : ∀ kv ∈ c.generic_policy, (splitDotAux kv.1.data).isSome)
    (hgppw : ∀ kv ∈ c.generic_policy,
      kv.2.Pairwise (fun x y => stripBang x ≠ stripBang y)) :
    flattenNoBang (flatpak_context_save_metadata c true) ∧
    flatpak_context_load_metadata validName flatpak_context_new
      (flatpak_context_save_metadata c true) = some (restrictToEnabled c) := by
  have hsave : flatpak_context_save_metadata c true =
      { shared := saveBitsetField (c.shares &&& c.shares_valid)
          (c.shares &&& c.shares_valid) sharesNames
        sockets := saveBitsetField (c.sockets &&& c.sockets_valid)
          (c.sockets &&& c.sockets_valid) socketsNames
        devices := saveBitsetField (c.devices &&& c.devices_valid)
          (c.devices &&& c.devices_valid) devicesNames
        features := saveBitsetField (c.features &&& c.features)
          (c.features &&& c.features) featuresNames
        filesystems := saveFilesystemsField c.filesystems
        persistent := savePersistentField c.persistent
        session_bus_policy := savePolicies c.session_bus_policy
        system_bus_policy := savePolicies c.system_bus_policy
        environment := c.env_vars
        policy := saveGenericPolicy true c.generic_policy } := rfl
  rw [hsave]
  constructor
  · refine ⟨?_, ?_, ?_, ?_, ?_, ?_, ?_⟩
    · exact saveBitsetField_self_all _ sharesNames (by decide)
    · exact saveBitsetField_self_all _ socketsNames (by decide)
    · exact saveBitsetField_self_all _ devicesNames (by decide)
    · exact saveBitsetField_self_all _ featuresNames (by decide)
    · intro e he
      have heq : saveFilesystemsField c.filesystems =
          if c.filesystems.length > 0 then some (c.filesystems.filterMap fsEmit)
          else none := rfl
      rw [heq] at he
      by_cases hlen : c.filesystems.length > 0
      · rw [if_pos hlen, Option.getD_some] at he
        obtain ⟨kv, hkv, hkve⟩ := List.mem_filterMap.mp he
        exact fsEmit_no_bang kv (hfsnb kv hkv) e hkve
      · rw [if_neg hlen] at he
        exact absurd he (List.not_mem_nil e)
    · intro e he
      have heq : savePersistentField c.persistent =
          if c.persistent.length > 0 then some c.persistent else none := rfl
      rw [heq] at he
      by_cases hlen : c.persistent.length > 0
      · rw [if_pos hlen, Option.getD_some] at he
        exact hpersnb e he
      · rw [if_neg hlen] at he
        exact absurd he (List.not_mem_nil e)
    · intro kv hkv v hv
      rw [show saveGenericPolicy true c.generic_policy
          = List.filterMap (sgpEmit true) c.generic_policy from rfl] at hkv
      obtain ⟨kv0, _, hkv0e⟩ := List.mem_filterMap.mp hkv
      exact sgpEmit_true_no_bang kv0 kv hkv0e v hv
  · have hshv4 : c.shares &&& c.shares_valid < 4 :=
      lt_of_le_of_lt Nat.and_le_right hshv
    have hsov32 : c.sockets &&& c.sockets_valid < 32 :=
      lt_of_le_of_lt Nat.and_le_right hsov
    have hdev8 : c.devices &&& c.devices_valid < 8 :=
      lt_of_le_of_lt Nat.and_le_right hdev
    have h1 := sharesBitsetRT (c.shares &&& c.shares_valid) hshv4
      (c.shares &&& c.shares_valid) hshv4 (Nat.and_self _)
    have h2 := socketsBitsetRT (c.sockets &&& c.sockets_valid) hsov32
      (c.sockets &&& c.sockets_valid) hsov32 (Nat.and_self _)
    have h3 := devicesBitsetRT (c.devices &&& c.devices_valid) hdev8
      (c.devices &&& c.devices_valid) hdev8 (Nat.and_self _)
    have h4 : loadBitsetField
        (saveBitsetField (c.features &&& c.features) (c.features &&& c.features)
          featuresNames) featuresNames (0, 0)
        = some (c.features &&& c.features, c.features &&& c.features) := by
      rw [Nat.and_self]
      exact featuresBitsetRT c.features hfev
    have h5 := loadFsField_roundtrip_filter c.filesystems hfsnd hfsok
    have h6 := loadPersistentField_roundtrip c.persistent hpers
    have h7 := parsePolicyList_roundtrip_filter validName c.session_bus_policy []
      hsessnd hsessp hsessv (by intro k _ hk; simp [keysOf] at hk)
    have h8 := parsePolicyList_roundtrip_filter validName c.system_bus_policy []
      hsysnd hsysp hsysv (by intro k _ hk; simp [keysOf] at hk)
    have h9 : insertAll ([] : List (String × String)) c.env_vars = c.env_vars :=
      insertAll_nil c.env_vars henv
    have h10 := loadPolicyGroups_roundtrip_flatten c.generic_policy [] hgpnd
      hgpsplit hgppw (by intro k _ hk; simp [keysOf] at hk)
    unfold flatpak_context_load_metadata
    simp only [flatpak_context_new, h1, h2, h3, h4, h5, h6, h7, h8, h9, h10,
      List.nil_append, Option.bind_eq_bind, Option.some_bind]
    simp only [restrictToEnabled, hfe, Nat.and_self]

/-- C4: the literal claim fails — `persistent` entries are flattened
verbatim, so a `'!'`-prefixed one survives into the manifest. -/
theorem flatten_no_bang_counterexample :
    ¬ flattenNoBang (flatpak_context_save_metadata
      { flatpak_context_new with persistent := ["!x"] } true) := by
  unfold flattenNoBang
  decide

theorem flatten_roundtrip_amended_witness :
    flattenNoBang (flatpak_context_save_metadata flattenSample true) ∧
    flatpak_context_load_metadata (fun _ => true) flatpak_context_new
      (flatpak_context_save_metadata flattenSample true)
      = some (restrictToEnabled flattenSample) :=
  flatten_roundtrip_amended (fun _ => true) flattenSample (by decide) (by decide)
    (by decide) (by decide) (by decide) (by decide) (by decide) (by decide)
    (by decide) (by decide) (by decide) (by decide) (by decide) (by decide)
    (by decide) (by decide) (by decide) (by decide) (by decide) (by decide)


end FlatpakRun
